import Mathlib

/-!
# Verification of the perfplot adaptive benchmarking core

Shallow embedding of `src/perfplot/_main.py` (the `bench` sweep controller and
the `_b` single-kernel calibrator), together with proofs settling the frozen
claims about them.

Modelling conventions:
* Nanosecond clock readings are natural numbers (`time.perf_counter_ns` /
  `time.time_ns` return integers).
* Python floats appearing in the calibrator's growth-factor computation and in
  the `max_time` comparison are modelled as exact rationals (`ℚ`).
* Python `int(x)` truncation of a nonnegative float is the floor; Python `//`
  on integers is floor division (`Int.fdiv`).
* Kernel outputs are opaque values of a type parameter `α`; the wall clock and
  the calibrator's measurement results are oracles supplied in the
  configuration, indexed by (kernel index, position of the size in `n_range`).
* Python exceptions are explicit: `Except`/error sum types.  Exceptions other
  than the ones `bench` raises or handles itself are carried as opaque
  numeric ids.
-/

namespace Perfplot

/-! ## The single-kernel calibrator `_b`

`_b(data, kernel, repeat)` repeatedly times `repeat` trials of `number`
consecutive kernel calls, growing `number` until the minimum trial *total*
strictly exceeds a 10 ns resolution floor, and finally returns the minimum
per-call estimate (each trial total floor-divided by `number`).

The embedding below fixes the clock model used by the claims: every single
kernel call is reported by the clock as taking exactly `D` nanoseconds, so a
trial of `number` consecutive calls measures `number * D`, identically across
the `rep` trials (`timeit.repeat` returns the list of trial totals).
-/

/-- Resolution floor: `required_timing_ns = 10`. -/
def requiredTimingNs : ℕ := 10

/-- Growth allowance: `allowance = 0.2`. -/
def allowance : ℚ := 1 / 5

/-- Growth ceiling: `max_factor = 100`. -/
def maxFactor : ℚ := 100

/-- The growth factor computed at the end of a calibrator iteration from the
minimum trial total `min_timing_ns` (an integer number of nanoseconds):
`max_factor` by default, and `required_timing_ns / min_timing_ns + allowance`
when `min_timing_ns` is positive and large enough that this does not exceed
the ceiling. Translates lines 286-297 of `_main.py`. -/
def growFactor (minTimingNs : ℕ) : ℚ :=
  if 0 < minTimingNs then
    if (requiredTimingNs : ℚ) / (maxFactor - allowance) < (minTimingNs : ℚ) then
      (requiredTimingNs : ℚ) / (minTimingNs : ℚ) + allowance
    else maxFactor
  else maxFactor

/-- `number = int(factor * number) + 1` (line 299 of `_main.py`); the factor is
nonnegative, so Python's `int` truncation is the floor. -/
def nextNumber (minTimingNs number : ℕ) : ℕ :=
  (⌊growFactor minTimingNs * (number : ℚ)⌋).toNat + 1

/-- The calibrator loop of `_b` (lines 272-299 of `_main.py`) under the
fixed-duration clock model: a trial of `number` calls always measures
`number * D` ns, and `timeit.repeat` yields `rep` such trials.  `fuel` bounds
the number of iterations we unfold; `none` means the loop did not return a
value within `fuel` iterations (or `np.min` was applied to an empty list of
trials, which only happens for `rep = 0`). -/
def bLoop (D rep : ℕ) : ℕ → ℕ → Option ℕ
  | 0, _ => none
  | fuel + 1, number =>
    match (List.replicate rep (number * D)).min? with
    | none => none
    | some minTimingNs =>
      if requiredTimingNs < minTimingNs then
        ((List.replicate rep (number * D)).map (fun t => t / number)).min?
      else bLoop D rep fuel (nextNumber minTimingNs number)

/-- `_b(data, kernel, repeat)` under the fixed per-call duration `D` clock
model: run the calibrator loop starting from `number = 1`. -/
def bCal (D rep fuel : ℕ) : Option ℕ :=
  bLoop D rep fuel 1

/-! ## The sweep controller `bench`

`bench` (lines 164-260 of `_main.py`) drives sizes × kernels.  The embedding
keeps an execution trace (`Ev`) as a ghost log so that statements can speak
about which kernel invocations, equality-check invocations, calibrator
invocations and cutoff-flag updates actually occurred, and at which size
index.  The trace is returned alongside the result and does not influence
control flow. -/

/-- Result of calling the user-supplied `equality_check(reference, val)`:
it may return a boolean, raise `TypeError` (caught by `bench`), or raise any
other exception (identified opaquely, propagating uncaught). -/
inductive CheckRes where
  | ok (b : Bool)
  | typeError
  | exc (e : ℕ)
  deriving DecidableEq

/-- Errors with which a `bench` run can abort.  `configError` and
`divergence` are the two `PerfplotError`s raised in lines 225-234;
`divergence` carries the two kernel labels interpolated into the message.
`uncaught` is any exception from a kernel, the setup generator or a
non-`TypeError` failure of the equality check, propagating unmodified.
`zeroDivisionError` is the unguarded `remaining_time_ns // t_ns` at line 243.
`progressKeyError` is the `KeyError` raised by rich's `Progress.update` when
given the never-created task id `None` (line 203 with `show_progress=False`;
progress reporting is an external collaborator, modelled at its interface:
`Progress.update` looks the task id up in its task table and raises for an
unknown id). -/
inductive BenchError where
  | configError
  | divergence (l0 lk : String)
  | uncaught (e : ℕ)
  | zeroDivisionError
  | progressKeyError
  deriving DecidableEq

/-- Ghost trace events of a `bench` run: `setupEv i` — the generator was
invoked for the size at position `i`; `call k i` — the one-shot timed
invocation of kernel `k`; `checkEv k i ref v` — `equality_check(ref, v)` was
invoked for kernel `k` (`ref` is `None` or the stored reference value);
`cutoffSet k i` — kernel `k`'s cutoff flag was set while processing position
`i`; `cal k i r` — the calibrator `_b` was invoked with repeat count `r`. -/
inductive Ev (α : Type) where
  | setupEv (i : ℕ)
  | call (k i : ℕ)
  | checkEv (k i : ℕ) (ref : Option α) (v : α)
  | cutoffSet (k i : ℕ)
  | cal (k i r : ℕ)
  deriving DecidableEq

/-- The size index an event belongs to. -/
def Ev.idx {α : Type} : Ev α → ℕ
  | .setupEv i => i
  | .call _ i => i
  | .checkEv _ i _ _ => i
  | .cutoffSet _ i => i
  | .cal _ i _ => i

/-- The kernel an event belongs to (`none` for generator invocations). -/
def Ev.ker {α : Type} : Ev α → Option ℕ
  | .setupEv _ => none
  | .call k _ => some k
  | .checkEv k _ _ _ => some k
  | .cutoffSet k _ => some k
  | .cal k _ _ => some k

/-- Configuration and oracles of a `bench` run.  `K` is the number of
kernels; `targetNs = int(target_time_per_measurement / 1e-9)`;
`maxTime` is the optional cutoff ceiling in seconds; `useCheck` is the
truthiness of `equality_check`; `check ref v` is the outcome of
`equality_check(ref, v)` (the reference slot holds `None` before kernel 0's
output is stored); `kernelVal k i` is the value of `kernel(data)` for kernel
`k` on the data generated for position `i` of `n_range` (or an uncaught
exception); `setupExc i` is an optional exception of `setup` at position `i`;
`oneShot k i` is the wall-clock nanosecond time `t_ns` of the one-shot call;
`calRes k i r` is the value `_b` returns when invoked there with repeat count
`r`; `interruptAfter = some m` delivers a `KeyboardInterrupt` after exactly
`m` sizes have been fully completed, before the next size is processed. -/
structure BenchCfg (α : Type) where
  K : ℕ
  labels : List String
  nRange : List ℤ
  targetNs : ℤ
  maxTime : Option ℚ
  useCheck : Bool
  check : Option α → α → CheckRes
  kernelVal : ℕ → ℕ → Except ℕ α
  setupExc : ℕ → Option ℕ
  oneShot : ℕ → ℕ → ℕ
  calRes : ℕ → ℕ → ℕ → ℕ
  flops : Option (ℤ → ℚ)
  showProgress : Bool
  interruptAfter : Option ℕ

/-- Mutable sweep state: the timing matrix (`np.full(.., np.nan)` becomes the
everywhere-`none` function; a written cell is `some t`) and the
`cutoff_reached` boolean array. -/
structure St (α : Type) where
  timings : ℕ → ℕ → Option ℕ
  cutoff : ℕ → Bool

/-- The immutable result structure: the (possibly truncated) size sequence,
the timing matrix as `K` rows over the completed size positions, the optional
FLOP counts (computed over the *original* size range, line 182), and the
kernel labels. -/
structure PerfplotData where
  n_range : List ℤ
  timings : List (List (Option ℕ))
  flop : Option (List ℚ)
  labels : List String
  deriving DecidableEq

instance exceptDecidableEq {ε β : Type} [DecidableEq ε] [DecidableEq β] :
    DecidableEq (Except ε β) := fun a b =>
  match a, b with
  | Except.ok x, Except.ok y => decidable_of_iff (x = y) (by simp)
  | Except.ok _, Except.error _ => isFalse (by simp)
  | Except.error _, Except.ok _ => isFalse (by simp)
  | Except.error e, Except.error e' => decidable_of_iff (e = e') (by simp)

/-- Whether the one-shot time triggers the cutoff at line 239:
`max_time is not None and t_ns * 1e-9 > max_time`.  The exact-rational
comparison `max_time < t_ns * 10⁻⁹` is written in cross-multiplied integer
form (`cutoffHit_iff` below proves the two forms equivalent) so that it
evaluates by reduction on concrete inputs. -/
def cutoffHit {α : Type} (cfg : BenchCfg α) (k i : ℕ) : Bool :=
  match cfg.maxTime with
  | some mt => decide (mt.num * 1000000000 < (cfg.oneShot k i : ℤ) * (mt.den : ℤ))
  | none => false

/-- `repeat = (int(target/1e-9) - t_ns) // t_ns` (lines 237, 242-243);
Python `//` is floor division. -/
def repCount {α : Type} (cfg : BenchCfg α) (k i : ℕ) : ℤ :=
  (cfg.targetNs - (cfg.oneShot k i : ℤ)).fdiv (cfg.oneShot k i : ℤ)

/-- The timing recorded into cell `(k, i)` (lines 244-248): the minimum of the
one-shot time and the calibrator's result when the repeat count is positive,
the one-shot time alone otherwise. -/
def cellValue {α : Type} (cfg : BenchCfg α) (k i : ℕ) : ℕ :=
  if 0 < repCount cfg k i then
    min (cfg.oneShot k i) (cfg.calRes k i (repCount cfg k i).toNat)
  else cfg.oneShot k i

/-- The equality-check block (lines 218-234) for kernel `k` with freshly
computed output `val` and current reference slot `ref`: for kernel 0 the
output becomes the reference; otherwise `equality_check(reference, val)` is
invoked — `TypeError` becomes the configuration `PerfplotError`, any other
exception propagates, a `False` result becomes the divergence `PerfplotError`
naming both labels.  Returns the new reference slot. -/
def checkOut {α : Type} (cfg : BenchCfg α) (ref : Option α) (val : α) (k : ℕ) :
    Except BenchError (Option α) :=
  match cfg.check ref val with
  | .typeError => .error .configError
  | .exc e => .error (.uncaught e)
  | .ok b =>
    if b then .ok ref
    else .error (.divergence (cfg.labels.getD 0 "") (cfg.labels.getD k ""))

/-- The dispatch of the equality-check block: skipped entirely when no check
is configured; for kernel 0 the value becomes the reference; otherwise the
check is invoked and `checkOut` maps its outcome to the continuation. -/
def checkStep {α : Type} (cfg : BenchCfg α) (ref : Option α) (val : α) (k i : ℕ) :
    List (Ev α) × Except BenchError (Option α) :=
  if cfg.useCheck then
    if k = 0 then ([], .ok (some val))
    else ([Ev.checkEv k i ref val], checkOut cfg ref val k)
  else ([], .ok ref)

/-- The timing matrix after the write `timings[k, i] = t_ns` at line 248. -/
def bodyTimings {α : Type} (cfg : BenchCfg α) (k i : ℕ) (st : St α) : ℕ → ℕ → Option ℕ :=
  fun k' i' => if k' = k ∧ i' = i then some (cellValue cfg k i) else st.timings k' i'

/-- The cutoff array after line 239-240: kernel `k`'s flag is or-ed with the
ceiling test, the others are untouched. -/
def bodyCutoff {α : Type} (cfg : BenchCfg α) (k i : ℕ) (st : St α) : ℕ → Bool :=
  fun k' => if k' = k then (st.cutoff k || cutoffHit cfg k i) else st.cutoff k'

/-- Ghost log entry for the cutoff-flag write at line 240. -/
def cutLog {α : Type} (cfg : BenchCfg α) (k i : ℕ) : List (Ev α) :=
  if cutoffHit cfg k i then [Ev.cutoffSet k i] else []

/-- Ghost log entry for the calibrator invocation at line 245. -/
def calLog {α : Type} (cfg : BenchCfg α) (k i : ℕ) : List (Ev α) :=
  if 0 < repCount cfg k i then [Ev.cal k i (repCount cfg k i).toNat] else []

/-- Processing of one live kernel `k` at size position `i` (lines 205-248):
one-shot timed call, equality check, cutoff-flag update, repeat-count
computation (raising `ZeroDivisionError` when the one-shot time is 0 ns),
optional calibrator invocation, and the write into the timing matrix. -/
def kernelBody {α : Type} (cfg : BenchCfg α) (i k : ℕ) (st : St α) (ref : Option α) :
    List (Ev α) × Except BenchError (St α × Option α) :=
  match cfg.kernelVal k i with
  | .error e => ([Ev.call k i], .error (.uncaught e))
  | .ok val =>
    match checkStep cfg ref val k i with
    | (clog, .error err) => (Ev.call k i :: clog, .error err)
    | (clog, .ok ref') =>
      if cfg.oneShot k i = 0 then
        (Ev.call k i :: (clog ++ cutLog cfg k i), .error .zeroDivisionError)
      else
        (Ev.call k i :: (clog ++ cutLog cfg k i ++ calLog cfg k i),
         .ok (⟨bodyTimings cfg k i st, bodyCutoff cfg k i st⟩, ref'))

/-- The inner `for k, kernel in enumerate(kernels)` loop (lines 201-250) over
the remaining kernel indices `ks`.  A kernel whose cutoff flag is set is
skipped, after `progress.update(task2, advance=1)` — which raises `KeyError`
when progress reporting is disabled, because `task2` is then the never-created
id `None` (lines 184-192, 202-204). -/
def kernelLoop {α : Type} (cfg : BenchCfg α) (i : ℕ) :
    List ℕ → St α → Option α → List (Ev α) × Except BenchError (St α)
  | [], st, _ => ([], .ok st)
  | k :: ks, st, ref =>
    if st.cutoff k then
      if cfg.showProgress then kernelLoop cfg i ks st ref
      else ([], .error .progressKeyError)
    else
      match kernelBody cfg i k st ref with
      | (blog, .error e) => (blog, .error e)
      | (blog, .ok (st', ref')) =>
        let (rlog, r) := kernelLoop cfg i ks st' ref'
        (blog ++ rlog, r)

/-- The outer `for n in n_range` loop (lines 194-254), with `i` the position
counter.  The `KeyboardInterrupt` of `interruptAfter = some m` arrives after
`m` sizes are fully completed and is caught by the `except KeyboardInterrupt`
at line 256, which makes the loop stop with the completed count; every other
exception propagates.  Returns the completed count and final state. -/
def sweepLoop {α : Type} (cfg : BenchCfg α) :
    ℕ → List ℤ → St α → List (Ev α) × Except BenchError (ℕ × St α)
  | i, [], st => ([], .ok (i, st))
  | i, _n :: rest, st =>
    if cfg.interruptAfter = some i then ([], .ok (i, st))
    else
      match cfg.setupExc i with
      | some e => ([Ev.setupEv i], .error (.uncaught e))
      | none =>
        match kernelLoop cfg i (List.range cfg.K) st none with
        | (klog, .error e) => (Ev.setupEv i :: klog, .error e)
        | (klog, .ok st') =>
          let (rlog, r) := sweepLoop cfg (i + 1) rest st'
          (Ev.setupEv i :: (klog ++ rlog), r)

/-- Fresh sweep state: all-NaN timing matrix, all cutoff flags cleared
(lines 179-180). -/
def initSt (α : Type) : St α := ⟨fun _ _ => none, fun _ => false⟩

/-- `bench` (lines 164-260): run the sweep from position 0 and assemble the
`PerfplotData` result, truncating `n_range` and the timing matrix to the
completed sizes (`timings[:, :i]`, `n_range[:i]`, lines 257-258).  The ghost
trace is returned alongside. -/
def bench {α : Type} (cfg : BenchCfg α) : List (Ev α) × Except BenchError PerfplotData :=
  match sweepLoop cfg 0 cfg.nRange (initSt α) with
  | (log, .error e) => (log, .error e)
  | (log, .ok (m, st)) =>
    (log, .ok { n_range := cfg.nRange.take m
              , timings := (List.range cfg.K).map fun k =>
                  (List.range m).map fun i => st.timings k i
              , flop := cfg.flops.map fun f => cfg.nRange.map f
              , labels := cfg.labels })

/-- Cell `(k, i)` of a result's timing matrix. -/
def cell (d : PerfplotData) (k i : ℕ) : Option ℕ :=
  (d.timings.getD k []).getD i none

/-- `true` iff the trace records kernel `k`'s cutoff flag being set at a size
position `≤ i`. -/
def cutAtOrBefore {α : Type} [DecidableEq α] (log : List (Ev α)) (k i : ℕ) : Bool :=
  log.any fun e =>
    match e with
    | .cutoffSet k' j => k' = k ∧ j ≤ i
    | _ => false

/-- `true` iff the trace records kernel `k`'s cutoff flag being set at a size
position `< i`. -/
def cutBefore {α : Type} [DecidableEq α] (log : List (Ev α)) (k i : ℕ) : Bool :=
  log.any fun e =>
    match e with
    | .cutoffSet k' j => k' = k ∧ j < i
    | _ => false

/-- `true` iff the run's cancellation signal arrived before size position `i`
was reached. -/
def interruptedBefore {α : Type} (cfg : BenchCfg α) (i : ℕ) : Bool :=
  match cfg.interruptAfter with
  | some m => m ≤ i
  | none => false

/-! ## Concrete runs used by witnesses and counterexamples -/

/-- One kernel, one size, zero ceiling: the 5 ns one-shot triggers the
cutoff at size 0, whose measurement is nevertheless recorded. -/
def cfgC1x : BenchCfg ℕ :=
  { K := 1, labels := ["a"], nRange := [5], targetNs := 0, maxTime := some 0,
    useCheck := false, check := fun _ _ => CheckRes.ok true,
    kernelVal := fun _ _ => Except.ok 0, setupExc := fun _ => none,
    oneShot := fun _ _ => 5, calRes := fun _ _ _ => 1,
    flops := none, showProgress := true, interruptAfter := none }

def c1xLog : List (Ev ℕ) := [Ev.setupEv 0, Ev.call 0 0, Ev.cutoffSet 0 0]

def c1xData : PerfplotData :=
  { n_range := [5], timings := [[some 5]], flop := none, labels := ["a"] }

/-- One kernel, two sizes, zero ceiling: cutoff at size 0, size 1 skipped. -/
def cfgCut2 : BenchCfg ℕ :=
  { K := 1, labels := ["a"], nRange := [5, 6], targetNs := 0, maxTime := some 0,
    useCheck := false, check := fun _ _ => CheckRes.ok true,
    kernelVal := fun _ _ => Except.ok 0, setupExc := fun _ => none,
    oneShot := fun _ _ => 7, calRes := fun _ _ _ => 1,
    flops := none, showProgress := true, interruptAfter := none }

def cut2Log : List (Ev ℕ) :=
  [Ev.setupEv 0, Ev.call 0 0, Ev.cutoffSet 0 0, Ev.setupEv 1]

def cut2Data : PerfplotData :=
  { n_range := [5, 6], timings := [[some 7, none]], flop := none, labels := ["a"] }

/-- Two kernels, two sizes, a 1 s ceiling: kernel 0 (2 s one-shot) is cut
off at size 0; at size 1 it is skipped, so kernel 1's equality check there
is invoked with the `None` reference. -/
def cfgC5x : BenchCfg ℕ :=
  { K := 2, labels := ["a", "b"], nRange := [5, 6], targetNs := 0,
    maxTime := some 1,
    useCheck := true, check := fun _ _ => CheckRes.ok true,
    kernelVal := fun k i => Except.ok (10 * k + i), setupExc := fun _ => none,
    oneShot := fun k _ => if k = 0 then 2000000000 else 1,
    calRes := fun _ _ _ => 1, flops := none, showProgress := true, interruptAfter := none }

def c5xLog : List (Ev ℕ) :=
  [Ev.setupEv 0, Ev.call 0 0, Ev.cutoffSet 0 0, Ev.call 1 0,
   Ev.checkEv 1 0 (some 0) 10, Ev.setupEv 1, Ev.call 1 1, Ev.checkEv 1 1 none 11]

def c5xData : PerfplotData :=
  { n_range := [5, 6], timings := [[some 2000000000, none], [some 1, some 1]], flop := none,
    labels := ["a", "b"] }

/-- Two live kernels, one size, configured and passing equality check. -/
def cfgC5w : BenchCfg ℕ :=
  { K := 2, labels := ["a", "b"], nRange := [4], targetNs := 0, maxTime := none,
    useCheck := true, check := fun _ _ => CheckRes.ok true,
    kernelVal := fun k i => Except.ok (10 * k + i), setupExc := fun _ => none,
    oneShot := fun _ _ => 5, calRes := fun _ _ _ => 1,
    flops := none, showProgress := true, interruptAfter := none }

def c5wLog : List (Ev ℕ) :=
  [Ev.setupEv 0, Ev.call 0 0, Ev.call 1 0, Ev.checkEv 1 0 (some 0) 10]

def c5wData : PerfplotData :=
  { n_range := [4], timings := [[some 5], [some 5]], flop := none, labels := ["a", "b"] }

/-- Two kernels whose outputs diverge under the configured check. -/
def cfgC6x : BenchCfg ℕ :=
  { K := 2, labels := ["a", "b"], nRange := [4], targetNs := 0, maxTime := none,
    useCheck := true, check := fun _ _ => CheckRes.ok false,
    kernelVal := fun k i => Except.ok (10 * k + i), setupExc := fun _ => none,
    oneShot := fun _ _ => 5, calRes := fun _ _ _ => 1,
    flops := none, showProgress := true, interruptAfter := none }

def c6xLog : List (Ev ℕ) :=
  [Ev.setupEv 0, Ev.call 0 0, Ev.call 1 0, Ev.checkEv 1 0 (some 0) 10]

/-- Two kernels with a configured passing check, a 100 ns target and a 5 ns
one-shot: the computed repeat count is `(100 - 5) // 5 = 19` and the 3 ns
calibrated estimate wins. -/
def cfgC4w : BenchCfg ℕ :=
  { K := 2, labels := ["a", "b"], nRange := [4], targetNs := 100, maxTime := none,
    useCheck := true, check := fun _ _ => CheckRes.ok true,
    kernelVal := fun k i => Except.ok (10 * k + i), setupExc := fun _ => none,
    oneShot := fun _ _ => 5, calRes := fun _ _ _ => 3,
    flops := none, showProgress := true, interruptAfter := none }

/-- Five sizes with a cancellation scheduled after three completed sizes. -/
def cfgC8w : BenchCfg ℕ :=
  { K := 1, labels := ["a"], nRange := [1, 2, 3, 4, 5], targetNs := 0, maxTime := none,
    useCheck := false, check := fun _ _ => CheckRes.ok true,
    kernelVal := fun _ _ => Except.ok 0, setupExc := fun _ => none,
    oneShot := fun _ _ => 5, calRes := fun _ _ _ => 1,
    flops := none, showProgress := true, interruptAfter := some 3 }

/-- A kernel whose one-shot measurement reads 0 ns. -/
def cfgC9w : BenchCfg ℕ :=
  { K := 1, labels := ["a"], nRange := [4], targetNs := 100, maxTime := none,
    useCheck := false, check := fun _ _ => CheckRes.ok true,
    kernelVal := fun _ _ => Except.ok 0, setupExc := fun _ => none,
    oneShot := fun _ _ => 0, calRes := fun _ _ _ => 1,
    flops := none, showProgress := true, interruptAfter := none }

/-- Progress reporting disabled. -/
def cfgC10w : BenchCfg ℕ :=
  { K := 1, labels := ["a"], nRange := [5, 6], targetNs := 0, maxTime := some 0,
    useCheck := false, check := fun _ _ => CheckRes.ok true,
    kernelVal := fun _ _ => Except.ok 0, setupExc := fun _ => none,
    oneShot := fun _ _ => 5, calRes := fun _ _ _ => 1,
    flops := none, showProgress := false, interruptAfter := none }

/-- The sweep invariant, tying the state after `i` fully completed sizes to
the accumulated ghost trace: flags hold exactly for kernels with a logged
cutoff event; a cell of a completed size is unwritten exactly when its
kernel's cutoff was logged at a strictly earlier size; every written cell is
the canonical recorded value (with a nonzero one-shot time); cells of
future sizes and of out-of-range kernels are unwritten; one-shot calls,
calibrator invocations and check invocations happen only for kernels not
cut off earlier; and every check invocation's reference slot is kernel 0's
output at that size when kernel 0 is live there, and empty otherwise. -/
structure TraceInv {α : Type} (cfg : BenchCfg α) (log : List (Ev α)) (i : ℕ) (st : St α) :
    Prop where
  idx_lt : ∀ e ∈ log, Ev.idx e < i
  flag_iff : ∀ k, st.cutoff k = true ↔ ∃ j, Ev.cutoffSet k j ∈ log
  cell_none_iff : ∀ k, k < cfg.K → ∀ j, j < i →
    (st.timings k j = none ↔ ∃ j', j' < j ∧ Ev.cutoffSet k j' ∈ log)
  cell_val : ∀ k j, st.timings k j = none ∨
    (st.timings k j = some (cellValue cfg k j) ∧ cfg.oneShot k j ≠ 0)
  cell_future : ∀ k j, i ≤ j → st.timings k j = none
  cell_hi : ∀ k, cfg.K ≤ k → ∀ j, st.timings k j = none
  call_live : ∀ k j, Ev.call k j ∈ log → ¬ ∃ j', j' < j ∧ Ev.cutoffSet k j' ∈ log
  cal_live : ∀ k j r, Ev.cal k j r ∈ log → ¬ ∃ j', j' < j ∧ Ev.cutoffSet k j' ∈ log
  check_props : ∀ k j (r : Option α) v, Ev.checkEv k j r v ∈ log →
    0 < k ∧
    (¬ ∃ j', j' < j ∧ Ev.cutoffSet k j' ∈ log) ∧
    ((∃ j', j' < j ∧ Ev.cutoffSet 0 j' ∈ log) → r = none) ∧
    ((¬ ∃ j', j' < j ∧ Ev.cutoffSet 0 j' ∈ log) →
      ∃ v₀, cfg.kernelVal 0 j = Except.ok v₀ ∧ r = some v₀)

/-! ## Kernel-body lemmas -/

/-- The cross-multiplied integer comparison used by `cutoffHit` is the exact
rational comparison of the source's `t_ns * 1e-9 > max_time`. -/
theorem int_cross_iff (mt : ℚ) (t : ℕ) :
    (mt.num * 1000000000 < (t : ℤ) * (mt.den : ℤ)) ↔ mt < (t : ℚ) * (1 / 1000000000) := by
  have hden : (0 : ℚ) < (mt.den : ℚ) := by exact_mod_cast mt.den_pos
  rw [show (t : ℚ) * (1 / 1000000000) = (t : ℚ) / 1000000000 from by ring,
    lt_div_iff (show (0 : ℚ) < 1000000000 by norm_num)]
  constructor
  · intro h
    have h' : ((mt.num : ℚ)) * 1000000000 < (t : ℚ) * (mt.den : ℚ) := by exact_mod_cast h
    rw [← Rat.num_div_den mt, div_mul_eq_mul_div, div_lt_iff hden]
    exact h'
  · intro h
    rw [← Rat.num_div_den mt, div_mul_eq_mul_div, div_lt_iff hden] at h
    exact_mod_cast h

/-- `cutoffHit` holds exactly when a ceiling is configured and the one-shot
time, converted to seconds, exceeds it (line 239). -/
theorem cutoffHit_iff {α : Type} (cfg : BenchCfg α) (k i : ℕ) :
    cutoffHit cfg k i = true ↔
      ∃ mt, cfg.maxTime = some mt ∧ mt < (cfg.oneShot k i : ℚ) * (1 / 1000000000) := by
  unfold cutoffHit
  cases hmt : cfg.maxTime with
  | none => simp
  | some mt =>
    simp only [decide_eq_true_eq]
    rw [int_cross_iff mt (cfg.oneShot k i)]
    constructor
    · intro h
      exact ⟨mt, rfl, h⟩
    · rintro ⟨mt', heq, h⟩
      injection heq with heq
      subst heq
      exact h

theorem checkOut_ok {α : Type} (cfg : BenchCfg α) (ref : Option α) (val : α) (k : ℕ)
    {ref' : Option α} (h : checkOut cfg ref val k = .ok ref') :
    ref' = ref ∧ cfg.check ref val = .ok true := by
  unfold checkOut at h
  cases hc : cfg.check ref val with
  | ok b =>
    rw [hc] at h
    cases b
    · simp at h
    · simp at h
      exact ⟨h.symm, rfl⟩
  | typeError => rw [hc] at h; simp at h
  | exc e => rw [hc] at h; simp at h

theorem checkOut_error {α : Type} (cfg : BenchCfg α) (ref : Option α) (val : α) (k : ℕ)
    {err : BenchError} (h : checkOut cfg ref val k = .error err) :
    (err = .configError ∧ cfg.check ref val = .typeError) ∨
    (∃ e, err = .uncaught e ∧ cfg.check ref val = .exc e) ∨
    (err = .divergence (cfg.labels.getD 0 "") (cfg.labels.getD k "") ∧
      cfg.check ref val = .ok false) := by
  unfold checkOut at h
  split at h
  next hc =>
    injection h with h
    exact Or.inl ⟨h.symm, hc⟩
  next e hc =>
    injection h with h
    exact Or.inr (Or.inl ⟨e, h.symm, hc⟩)
  next b hc =>
    cases b
    · rw [if_neg (by simp)] at h
      injection h with h
      exact Or.inr (Or.inr ⟨h.symm, hc⟩)
    · rw [if_pos rfl] at h
      simp at h

theorem checkOut_of_typeError {α : Type} (cfg : BenchCfg α) (ref : Option α) (val : α) (k : ℕ)
    (hc : cfg.check ref val = .typeError) : checkOut cfg ref val k = .error .configError := by
  unfold checkOut
  rw [hc]

theorem checkOut_of_false {α : Type} (cfg : BenchCfg α) (ref : Option α) (val : α) (k : ℕ)
    (hc : cfg.check ref val = .ok false) :
    checkOut cfg ref val k
      = .error (.divergence (cfg.labels.getD 0 "") (cfg.labels.getD k "")) := by
  unfold checkOut
  rw [hc]
  rfl

theorem checkOut_of_exc {α : Type} (cfg : BenchCfg α) (ref : Option α) (val : α) (k e : ℕ)
    (hc : cfg.check ref val = .exc e) : checkOut cfg ref val k = .error (.uncaught e) := by
  unfold checkOut
  rw [hc]

/-- The log of the equality-check block: empty (and then the block cannot
fail), or the single invocation event — which happens exactly for a
configured check and a non-zero kernel, carries the actual arguments, and
determines the continuation through `checkOut`. -/
theorem checkStep_log {α : Type} (cfg : BenchCfg α) (ref : Option α) (val : α) (k i : ℕ) :
    ((checkStep cfg ref val k i).1 = [] ∧ ∃ r', (checkStep cfg ref val k i).2 = .ok r') ∨
    ((checkStep cfg ref val k i).1 = [Ev.checkEv k i ref val] ∧ cfg.useCheck = true ∧ k ≠ 0 ∧
      (checkStep cfg ref val k i).2 = checkOut cfg ref val k) := by
  unfold checkStep
  split_ifs with h1 h2
  · exact Or.inl ⟨rfl, some val, rfl⟩
  · exact Or.inr ⟨rfl, h1, h2, rfl⟩
  · exact Or.inl ⟨rfl, ref, rfl⟩

theorem checkStep_ok_ref {α : Type} (cfg : BenchCfg α) (ref : Option α) (val : α) (k i : ℕ)
    {ref' : Option α} (h : (checkStep cfg ref val k i).2 = .ok ref') :
    (k = 0 ∧ cfg.useCheck = true ∧ ref' = some val) ∨ ref' = ref := by
  unfold checkStep at h
  split_ifs at h with h1 h2
  · simp at h
    exact Or.inl ⟨h2, h1, h.symm⟩
  · exact Or.inr (checkOut_ok cfg ref val k h).1
  · simp at h
    exact Or.inr h.symm

theorem mem_cutLog {α : Type} (cfg : BenchCfg α) (k i : ℕ) {e : Ev α}
    (h : e ∈ cutLog cfg k i) : e = Ev.cutoffSet k i ∧ cutoffHit cfg k i = true := by
  unfold cutLog at h
  split_ifs at h with hc
  · simp at h
    exact ⟨h, hc⟩
  · simp at h

theorem mem_calLog {α : Type} (cfg : BenchCfg α) (k i : ℕ) {e : Ev α}
    (h : e ∈ calLog cfg k i) :
    e = Ev.cal k i (repCount cfg k i).toNat ∧ 0 < repCount cfg k i := by
  unfold calLog at h
  split_ifs at h with hc
  · simp at h
    exact ⟨h, hc⟩
  · simp at h

/-- Inversion of a successful kernel body: the kernel returned a value, the
equality check passed, the one-shot time was nonzero, and both the log and
the post-state have the canonical shape. -/
theorem kernelBody_ok {α : Type} (cfg : BenchCfg α) (i k : ℕ) (st : St α) (ref : Option α)
    {blog : List (Ev α)} {st' : St α} {ref' : Option α}
    (h : kernelBody cfg i k st ref = (blog, .ok (st', ref'))) :
    ∃ val, cfg.kernelVal k i = .ok val ∧
      (checkStep cfg ref val k i).2 = .ok ref' ∧
      cfg.oneShot k i ≠ 0 ∧
      blog = Ev.call k i :: ((checkStep cfg ref val k i).1 ++ cutLog cfg k i ++ calLog cfg k i) ∧
      st' = ⟨bodyTimings cfg k i st, bodyCutoff cfg k i st⟩ := by
  unfold kernelBody at h
  split at h
  next e hkv => simp at h
  next val hkv =>
    split at h
    next clog err hcs => simp at h
    next clog r' hcs =>
      split at h
      next h0 => simp at h
      next h0 =>
        simp only [Prod.mk.injEq, Except.ok.injEq] at h
        refine ⟨val, hkv, ?_, h0, ?_, ?_⟩
        · rw [hcs, h.2.2]
        · rw [hcs]
          exact h.1.symm
        · exact h.2.1.symm

/-- Inversion of a failing kernel body: the three raise sites. -/
theorem kernelBody_err {α : Type} (cfg : BenchCfg α) (i k : ℕ) (st : St α) (ref : Option α)
    {blog : List (Ev α)} {err : BenchError}
    (h : kernelBody cfg i k st ref = (blog, .error err)) :
    (∃ e, cfg.kernelVal k i = .error e ∧ err = .uncaught e ∧ blog = [Ev.call k i]) ∨
    (∃ val, cfg.kernelVal k i = .ok val ∧ (checkStep cfg ref val k i).2 = .error err ∧
      blog = Ev.call k i :: (checkStep cfg ref val k i).1) ∨
    (∃ val ref', cfg.kernelVal k i = .ok val ∧ (checkStep cfg ref val k i).2 = .ok ref' ∧
      cfg.oneShot k i = 0 ∧ err = .zeroDivisionError ∧
      blog = Ev.call k i :: ((checkStep cfg ref val k i).1 ++ cutLog cfg k i)) := by
  unfold kernelBody at h
  split at h
  next e hkv =>
    simp only [Prod.mk.injEq, Except.error.injEq] at h
    exact Or.inl ⟨e, hkv, h.2.symm, h.1.symm⟩
  next val hkv =>
    split at h
    next clog err' hcs =>
      simp only [Prod.mk.injEq, Except.error.injEq] at h
      refine Or.inr (Or.inl ⟨val, hkv, ?_, ?_⟩)
      · rw [hcs, h.2]
      · rw [hcs, h.1]
    next clog r' hcs =>
      split at h
      next h0 =>
        simp only [Prod.mk.injEq, Except.error.injEq] at h
        refine Or.inr (Or.inr ⟨val, r', hkv, ?_, h0, h.2.symm, ?_⟩)
        · rw [hcs]
        · rw [hcs, h.1]
      next h0 => simp at h

/-- Case analysis for membership in a successful body's log. -/
theorem mem_body_log_cases {α : Type} (cfg : BenchCfg α) (ref : Option α) (val : α) (k i : ℕ)
    {e : Ev α}
    (h : e ∈ Ev.call k i :: ((checkStep cfg ref val k i).1 ++ cutLog cfg k i ++ calLog cfg k i)) :
    e = Ev.call k i ∨
    (e = Ev.checkEv k i ref val ∧ cfg.useCheck = true ∧ k ≠ 0) ∨
    (e = Ev.cutoffSet k i ∧ cutoffHit cfg k i = true) ∨
    (e = Ev.cal k i (repCount cfg k i).toNat ∧ 0 < repCount cfg k i) := by
  rcases List.mem_cons.mp h with h | h
  · exact Or.inl h
  rcases List.mem_append.mp h with h | h
  · rcases List.mem_append.mp h with h | h
    · rcases checkStep_log cfg ref val k i with ⟨hl, -⟩ | ⟨hl, hu, hk, -⟩
      · rw [hl] at h
        simp at h
      · rw [hl] at h
        simp at h
        exact Or.inr (Or.inl ⟨h, hu, hk⟩)
    · exact Or.inr (Or.inr (Or.inl (mem_cutLog cfg k i h)))
  · exact Or.inr (Or.inr (Or.inr (mem_calLog cfg k i h)))

/-- Every event emitted by a kernel body belongs to that kernel and size. -/
theorem mem_kernelBody_log {α : Type} (cfg : BenchCfg α) (i k : ℕ) (st : St α) (ref : Option α)
    {e : Ev α} (h : e ∈ (kernelBody cfg i k st ref).1) :
    e.ker = some k ∧ e.idx = i := by
  rcases hb : kernelBody cfg i k st ref with ⟨blog, res⟩
  rw [hb] at h
  cases res with
  | ok p =>
    rcases p with ⟨st', ref'⟩
    obtain ⟨val, -, -, -, hblog, -⟩ := kernelBody_ok cfg i k st ref hb
    rw [hblog] at h
    rcases mem_body_log_cases cfg ref val k i h with h | ⟨h, -⟩ | ⟨h, -⟩ | ⟨h, -⟩ <;>
      simp [h, Ev.ker, Ev.idx]
  | error err =>
    rcases kernelBody_err cfg i k st ref hb with ⟨e', -, -, hblog⟩ |
      ⟨val, -, -, hblog⟩ | ⟨val, ref', -, -, -, -, hblog⟩
    · rw [hblog] at h
      simp at h
      simp [h, Ev.ker, Ev.idx]
    · rw [hblog] at h
      rcases List.mem_cons.mp h with h | h
      · simp [h, Ev.ker, Ev.idx]
      · rcases checkStep_log cfg ref val k i with ⟨hl, -⟩ | ⟨hl, -, -, -⟩
        · rw [hl] at h
          simp at h
        · rw [hl] at h
          simp at h
          simp [h, Ev.ker, Ev.idx]
    · rw [hblog] at h
      rcases List.mem_cons.mp h with h | h
      · simp [h, Ev.ker, Ev.idx]
      · rcases List.mem_append.mp h with h | h
        · rcases checkStep_log cfg ref val k i with ⟨hl, -⟩ | ⟨hl, -, -, -⟩
          · rw [hl] at h
            simp at h
          · rw [hl] at h
            simp at h
            simp [h, Ev.ker, Ev.idx]
        · obtain ⟨he, -⟩ := mem_cutLog cfg k i h
          simp [he, Ev.ker, Ev.idx]

/-! ## Kernel-loop unfolding lemmas -/

theorem kernelLoop_skip_prog {α : Type} (cfg : BenchCfg α) (i k : ℕ) (ks : List ℕ)
    (st : St α) (ref : Option α) (hc : st.cutoff k = true) (hp : cfg.showProgress = true) :
    kernelLoop cfg i (k :: ks) st ref = kernelLoop cfg i ks st ref := by
  rw [kernelLoop, if_pos hc, if_pos hp]

theorem kernelLoop_skip_noprog {α : Type} (cfg : BenchCfg α) (i k : ℕ) (ks : List ℕ)
    (st : St α) (ref : Option α) (hc : st.cutoff k = true) (hp : cfg.showProgress = false) :
    kernelLoop cfg i (k :: ks) st ref = ([], .error .progressKeyError) := by
  rw [kernelLoop, if_pos hc, hp]
  simp

theorem kernelLoop_live_err {α : Type} (cfg : BenchCfg α) (i k : ℕ) (ks : List ℕ)
    (st : St α) (ref : Option α) {blog : List (Ev α)} {err : BenchError}
    (hc : st.cutoff k = false) (hb : kernelBody cfg i k st ref = (blog, .error err)) :
    kernelLoop cfg i (k :: ks) st ref = (blog, .error err) := by
  rw [kernelLoop, if_neg (by simp [hc]), hb]

theorem kernelLoop_live_ok {α : Type} (cfg : BenchCfg α) (i k : ℕ) (ks : List ℕ)
    (st : St α) (ref : Option α) {blog : List (Ev α)} {st' : St α} {ref' : Option α}
    (hc : st.cutoff k = false) (hb : kernelBody cfg i k st ref = (blog, .ok (st', ref'))) :
    kernelLoop cfg i (k :: ks) st ref
      = (blog ++ (kernelLoop cfg i ks st' ref').1, (kernelLoop cfg i ks st' ref').2) := by
  rw [kernelLoop, if_neg (by simp [hc]), hb]

/-- Every event emitted by the kernel loop belongs to size `i` and to a
kernel from the processed list whose cutoff flag was clear at loop entry. -/
theorem kernelLoop_events {α : Type} (cfg : BenchCfg α) (i : ℕ) :
    ∀ ks (st : St α) (ref : Option α), ks.Nodup →
      ∀ e ∈ (kernelLoop cfg i ks st ref).1,
        e.idx = i ∧ ∃ k, e.ker = some k ∧ k ∈ ks ∧ st.cutoff k = false := by
  intro ks
  induction ks with
  | nil =>
    intro st ref _ e he
    simp [kernelLoop] at he
  | cons k ks ih =>
    intro st ref hnd e he
    cases hc : st.cutoff k with
    | true =>
      cases hp : cfg.showProgress with
      | true =>
        rw [kernelLoop_skip_prog cfg i k ks st ref hc hp] at he
        obtain ⟨hidx, k', hker, hmem, hcut⟩ := ih st ref (List.nodup_cons.mp hnd).2 e he
        exact ⟨hidx, k', hker, List.mem_cons_of_mem k hmem, hcut⟩
      | false =>
        rw [kernelLoop_skip_noprog cfg i k ks st ref hc hp] at he
        simp at he
    | false =>
      rcases hb : kernelBody cfg i k st ref with ⟨blog, res⟩
      cases res with
      | error err =>
        rw [kernelLoop_live_err cfg i k ks st ref hc hb] at he
        obtain ⟨hker, hidx⟩ := mem_kernelBody_log cfg i k st ref (by rw [hb]; exact he)
        exact ⟨hidx, k, hker, List.mem_cons_self k ks, hc⟩
      | ok p =>
        rcases p with ⟨st', ref'⟩
        rw [kernelLoop_live_ok cfg i k ks st ref hc hb] at he
        rcases List.mem_append.mp he with he | he
        · obtain ⟨hker, hidx⟩ := mem_kernelBody_log cfg i k st ref (by rw [hb]; exact he)
          exact ⟨hidx, k, hker, List.mem_cons_self k ks, hc⟩
        · obtain ⟨hidx, k', hker, hmem, hcut⟩ := ih st' ref' (List.nodup_cons.mp hnd).2 e he
          refine ⟨hidx, k', hker, List.mem_cons_of_mem k hmem, ?_⟩
          obtain ⟨val, -, -, -, -, hst'⟩ := kernelBody_ok cfg i k st ref hb
          have hne : k' ≠ k := by
            intro hkk
            exact (List.nodup_cons.mp hnd).1 (hkk ▸ hmem)
          rw [hst'] at hcut
          simpa [bodyCutoff, hne] using hcut

/-- State shape of a successful kernel loop over distinct kernels: rows of
kernels outside the list and of already-cutoff kernels are untouched; each
processed live kernel got exactly the canonical body effect, with the
matching trace facts. -/
theorem kernelLoop_ok_state {α : Type} (cfg : BenchCfg α) (i : ℕ) :
    ∀ ks (st : St α) (ref : Option α) (klog : List (Ev α)) (st' : St α),
      kernelLoop cfg i ks st ref = (klog, .ok st') → ks.Nodup →
      ((∀ k', k' ∉ ks →
          (∀ j, st'.timings k' j = st.timings k' j) ∧ st'.cutoff k' = st.cutoff k') ∧
       (∀ k' ∈ ks, st.cutoff k' = true →
          (∀ j, st'.timings k' j = st.timings k' j) ∧ st'.cutoff k' = true) ∧
       (∀ k' ∈ ks, st.cutoff k' = false →
          st'.timings k' i = some (cellValue cfg k' i) ∧ cfg.oneShot k' i ≠ 0 ∧
          (∀ j, j ≠ i → st'.timings k' j = st.timings k' j) ∧
          st'.cutoff k' = cutoffHit cfg k' i ∧
          (Ev.cutoffSet k' i ∈ klog ↔ cutoffHit cfg k' i = true) ∧
          Ev.call k' i ∈ klog)) := by
  intro ks
  induction ks with
  | nil =>
    intro st ref klog st' h _
    rw [kernelLoop] at h
    injection h with h1 h2
    injection h2 with h2
    subst h1
    subst h2
    refine ⟨fun k' _ => ⟨fun j => rfl, rfl⟩, ?_, ?_⟩
    · intro k' hk'
      simp at hk'
    · intro k' hk'
      simp at hk'
  | cons k ks ih =>
    intro st ref klog st' h hnd
    obtain ⟨hknotin, hndt⟩ := List.nodup_cons.mp hnd
    cases hc : st.cutoff k with
    | true =>
      cases hp : cfg.showProgress with
      | false =>
        rw [kernelLoop_skip_noprog cfg i k ks st ref hc hp] at h
        injection h with h1 h2
        simp at h2
      | true =>
        rw [kernelLoop_skip_prog cfg i k ks st ref hc hp] at h
        obtain ⟨ha, hb', hc'⟩ := ih st ref klog st' h hndt
        refine ⟨?_, ?_, ?_⟩
        · intro k' hk'
          exact ha k' (fun hmem => hk' (List.mem_cons_of_mem k hmem))
        · intro k' hk' hcut
          rcases List.mem_cons.mp hk' with rfl | hmem
          · refine ⟨(ha k' hknotin).1, ?_⟩
            rw [(ha k' hknotin).2, hcut]
          · exact hb' k' hmem hcut
        · intro k' hk' hcut
          rcases List.mem_cons.mp hk' with rfl | hmem
          · rw [hc] at hcut
            simp at hcut
          · exact hc' k' hmem hcut
    | false =>
      rcases hbody : kernelBody cfg i k st ref with ⟨blog, res⟩
      cases res with
      | error err =>
        rw [kernelLoop_live_err cfg i k ks st ref hc hbody] at h
        injection h with h1 h2
        simp at h2
      | ok p =>
        rcases p with ⟨st₁, ref₁⟩
        rw [kernelLoop_live_ok cfg i k ks st ref hc hbody] at h
        rcases hr : kernelLoop cfg i ks st₁ ref₁ with ⟨rlog, r⟩
        rw [hr] at h
        injection h with h1 h2
        subst h1
        cases r with
        | error e =>
          simp at h2
        | ok st'' =>
          injection h2 with h2
          subst h2
          obtain ⟨val, hkv, hcs2, h0, hblog, hst₁⟩ := kernelBody_ok cfg i k st ref hbody
          obtain ⟨ha, hb', hc'⟩ := ih st₁ ref₁ rlog st'' hr hndt
          have ht₁ : ∀ k' j, st₁.timings k' j
              = if k' = k ∧ j = i then some (cellValue cfg k i) else st.timings k' j := by
            intro k' j
            rw [hst₁]
            rfl
          have hcut₁ : ∀ k', st₁.cutoff k'
              = if k' = k then (st.cutoff k || cutoffHit cfg k i) else st.cutoff k' := by
            intro k'
            rw [hst₁]
            rfl
          have hblog_ker : ∀ e ∈ blog, Ev.ker e = some k ∧ Ev.idx e = i := by
            intro e he
            exact mem_kernelBody_log cfg i k st ref (by rw [hbody]; exact he)
          refine ⟨?_, ?_, ?_⟩
          · intro k' hk'
            have hne : k' ≠ k := fun hkk => hk' (hkk ▸ List.mem_cons_self k ks)
            have hnmem : k' ∉ ks := fun hmem => hk' (List.mem_cons_of_mem k hmem)
            refine ⟨fun j => ?_, ?_⟩
            · rw [(ha k' hnmem).1 j, ht₁]
              simp [hne]
            · rw [(ha k' hnmem).2, hcut₁]
              simp [hne]
          · intro k' hk' hcut
            rcases List.mem_cons.mp hk' with rfl | hmem
            · rw [hc] at hcut
              simp at hcut
            · have hne : k' ≠ k := fun hkk => hknotin (hkk ▸ hmem)
              have hcut₁' : st₁.cutoff k' = true := by
                rw [hcut₁]
                simp [hne, hcut]
              obtain ⟨htim, hcu⟩ := hb' k' hmem hcut₁'
              refine ⟨fun j => ?_, hcu⟩
              rw [htim j, ht₁]
              simp [hne]
          · intro k' hk' hcut
            rcases List.mem_cons.mp hk' with rfl | hmem
            · -- the head kernel itself
              refine ⟨?_, h0, ?_, ?_, ?_, ?_⟩
              · rw [(ha k' hknotin).1 i, ht₁]
                simp
              · intro j hj
                rw [(ha k' hknotin).1 j, ht₁]
                simp [hj]
              · rw [(ha k' hknotin).2, hcut₁]
                simp [hc]
              · constructor
                · intro hm
                  rcases List.mem_append.mp hm with hm | hm
                  · rw [hblog] at hm
                    rcases mem_body_log_cases cfg ref val k' i hm with h1 | ⟨h1, -⟩ |
                      ⟨h1, hhit⟩ | ⟨h1, -⟩
                    · simp at h1
                    · simp at h1
                    · exact hhit
                    · simp at h1
                  · obtain ⟨-, k'', hker, hmem'', -⟩ :=
                      kernelLoop_events cfg i ks st₁ ref₁ hndt (Ev.cutoffSet k' i)
                        (by rw [hr]; exact hm)
                    simp [Ev.ker] at hker
                    exact absurd (hker ▸ hmem'') hknotin
                · intro hhit
                  apply List.mem_append_left
                  rw [hblog]
                  simp [cutLog, hhit]
              · apply List.mem_append_left
                rw [hblog]
                exact List.mem_cons_self _ _
            · have hne : k' ≠ k := fun hkk => hknotin (hkk ▸ hmem)
              have hcut₁' : st₁.cutoff k' = false := by
                rw [hcut₁]
                simp [hne, hcut]
              obtain ⟨htimi, h0', htimj, hcu, hiff, hcall⟩ := hc' k' hmem hcut₁'
              refine ⟨htimi, h0', fun j hj => ?_, hcu, ?_, List.mem_append_right _ hcall⟩
              · rw [htimj j hj, ht₁]
                simp [hne]
              · constructor
                · intro hm
                  rcases List.mem_append.mp hm with hm | hm
                  · obtain ⟨hker, -⟩ := hblog_ker _ hm
                    simp [Ev.ker] at hker
                    exact absurd hker hne
                  · exact hiff.mp hm
                · intro hhit
                  exact List.mem_append_right _ (hiff.mpr hhit)

/-- A logged equality-check invocation pins down its kernel, size and actual
arguments: the reference slot that was passed and the value the kernel
returned; it also certifies that a check was configured and that the kernel
is not the baseline. -/
theorem kernelBody_checkEv {α : Type} (cfg : BenchCfg α) (i k : ℕ) (st : St α) (ref : Option α)
    {k' j : ℕ} {r : Option α} {v : α}
    (h : Ev.checkEv k' j r v ∈ (kernelBody cfg i k st ref).1) :
    k' = k ∧ j = i ∧ r = ref ∧ cfg.kernelVal k i = .ok v ∧ cfg.useCheck = true ∧ k ≠ 0 := by
  rcases hb : kernelBody cfg i k st ref with ⟨blog, res⟩
  rw [hb] at h
  cases res with
  | ok p =>
    rcases p with ⟨st', ref'⟩
    obtain ⟨val, hkv, -, -, hblog, -⟩ := kernelBody_ok cfg i k st ref hb
    rw [hblog] at h
    rcases mem_body_log_cases cfg ref val k i h with h1 | ⟨h1, hu, hk⟩ | ⟨h1, -⟩ | ⟨h1, -⟩
    · simp at h1
    · injection h1 with e1 e2 e3 e4
      exact ⟨e1, e2, e3, by rw [e4]; exact hkv, hu, hk⟩
    · simp at h1
    · simp at h1
  | error err =>
    rcases kernelBody_err cfg i k st ref hb with ⟨e, -, -, hblog⟩ |
      ⟨val, hkv, -, hblog⟩ | ⟨val, ref', hkv, -, -, -, hblog⟩
    · rw [hblog] at h
      simp at h
    · rw [hblog] at h
      rcases List.mem_cons.mp h with h1 | h1
      · simp at h1
      · rcases checkStep_log cfg ref val k i with ⟨hl, -⟩ | ⟨hl, hu, hk, -⟩
        · rw [hl] at h1
          simp at h1
        · rw [hl] at h1
          simp at h1
          obtain ⟨e1, e2, e3, e4⟩ := h1
          exact ⟨e1, e2, e3, by rw [e4]; exact hkv, hu, hk⟩
    · rw [hblog] at h
      rcases List.mem_cons.mp h with h1 | h1
      · simp at h1
      · rcases List.mem_append.mp h1 with h1 | h1
        · rcases checkStep_log cfg ref val k i with ⟨hl, -⟩ | ⟨hl, hu, hk, -⟩
          · rw [hl] at h1
            simp at h1
          · rw [hl] at h1
            simp at h1
            obtain ⟨e1, e2, e3, e4⟩ := h1
            exact ⟨e1, e2, e3, by rw [e4]; exact hkv, hu, hk⟩
        · obtain ⟨he, -⟩ := mem_cutLog cfg k i h1
          simp at he

/-- For a configured check and a non-baseline kernel, the check block is
exactly the single invocation routed through `checkOut`. -/
theorem checkStep_pos {α : Type} (cfg : BenchCfg α) (ref : Option α) (val : α) (k i : ℕ)
    (hu : cfg.useCheck = true) (hk : k ≠ 0) :
    checkStep cfg ref val k i = ([Ev.checkEv k i ref val], checkOut cfg ref val k) := by
  unfold checkStep
  rw [hu]
  simp [hk]

/-- If a logged equality-check invocation's outcome maps to an error, the
body aborts with exactly that error. -/
theorem kernelBody_checkEv_out {α : Type} (cfg : BenchCfg α) (i k : ℕ) (st : St α)
    (ref : Option α) {k' j : ℕ} {r : Option α} {v : α} {err : BenchError}
    (h : Ev.checkEv k' j r v ∈ (kernelBody cfg i k st ref).1)
    (hout : checkOut cfg r v k' = .error err) :
    (kernelBody cfg i k st ref).2 = .error err := by
  obtain ⟨e1, e2, e3, hkv, hu, hk⟩ := kernelBody_checkEv cfg i k st ref h
  rw [e1, e2, e3] at h
  rw [e1, e3] at hout
  rcases hb : kernelBody cfg i k st ref with ⟨blog, res⟩
  rw [hb] at h
  cases res with
  | ok p =>
    rcases p with ⟨st', ref'⟩
    obtain ⟨val, hkv', hcs2, -, -, -⟩ := kernelBody_ok cfg i k st ref hb
    have hval : val = v := by
      rw [hkv'] at hkv
      injection hkv
    subst hval
    rw [checkStep_pos cfg ref val k i hu hk] at hcs2
    simp at hcs2
    rw [hcs2] at hout
    simp at hout
  | error err' =>
    rcases kernelBody_err cfg i k st ref hb with ⟨e, -, -, hblog⟩ |
      ⟨val, hkv', hcs2, -⟩ | ⟨val, ref', hkv', hcs2, -, -, -⟩
    · rw [hblog] at h
      simp at h
    · have hval : val = v := by
        rw [hkv'] at hkv
        injection hkv
      subst hval
      rw [checkStep_pos cfg ref val k i hu hk] at hcs2
      simp at hcs2
      rw [hcs2] at hout
      injection hout with hout
      rw [hout]
    · have hval : val = v := by
        rw [hkv'] at hkv
        injection hkv
      subst hval
      rw [checkStep_pos cfg ref val k i hu hk] at hcs2
      simp at hcs2
      rw [hcs2] at hout
      simp at hout

/-- A kernel call whose oracle raises aborts the body with that exception. -/
theorem kernelBody_of_kernelErr {α : Type} (cfg : BenchCfg α) (i k : ℕ) (st : St α)
    (ref : Option α) (e : ℕ) (hkv : cfg.kernelVal k i = .error e) :
    kernelBody cfg i k st ref = ([Ev.call k i], .error (.uncaught e)) := by
  unfold kernelBody
  rw [hkv]

/-- Over a kernel list that does not contain the baseline kernel 0, the
reference slot never changes, so every logged check invocation carries the
reference the loop was entered with. -/
theorem kernelLoop_ref {α : Type} (cfg : BenchCfg α) (i : ℕ) :
    ∀ ks (st : St α) (ref : Option α), 0 ∉ ks →
      ∀ k j (r : Option α) v, Ev.checkEv k j r v ∈ (kernelLoop cfg i ks st ref).1 → r = ref := by
  intro ks
  induction ks with
  | nil =>
    intro st ref _ k j r v hm
    simp [kernelLoop] at hm
  | cons kh ks ih =>
    intro st ref h0 k j r v hm
    have hkh0 : kh ≠ 0 := fun he => h0 (he ▸ List.mem_cons_self kh ks)
    have h0t : 0 ∉ ks := fun hmem => h0 (List.mem_cons_of_mem kh hmem)
    cases hc : st.cutoff kh with
    | true =>
      cases hp : cfg.showProgress with
      | true =>
        rw [kernelLoop_skip_prog cfg i kh ks st ref hc hp] at hm
        exact ih st ref h0t k j r v hm
      | false =>
        rw [kernelLoop_skip_noprog cfg i kh ks st ref hc hp] at hm
        simp at hm
    | false =>
      rcases hbody : kernelBody cfg i kh st ref with ⟨blog, res⟩
      cases res with
      | error err =>
        rw [kernelLoop_live_err cfg i kh ks st ref hc hbody] at hm
        obtain ⟨-, -, e3, -, -, -⟩ :=
          kernelBody_checkEv cfg i kh st ref (by rw [hbody]; exact hm)
        exact e3
      | ok p =>
        rcases p with ⟨st₁, ref₁⟩
        rw [kernelLoop_live_ok cfg i kh ks st ref hc hbody] at hm
        rcases List.mem_append.mp hm with hm | hm
        · obtain ⟨-, -, e3, -, -, -⟩ :=
            kernelBody_checkEv cfg i kh st ref (by rw [hbody]; exact hm)
          exact e3
        · have href₁ : ref₁ = ref := by
            obtain ⟨val, -, hcs2, -, -, -⟩ := kernelBody_ok cfg i kh st ref hbody
            rcases checkStep_ok_ref cfg ref val kh i hcs2 with ⟨hkh, -, -⟩ | he
            · exact absurd hkh hkh0
            · exact he
          rw [← href₁]
          exact ih st₁ ref₁ h0t k j r v hm

/-- Any logged equality-check invocation certifies a configured check, a
non-baseline kernel, and the current size index. -/
theorem kernelLoop_checkEv {α : Type} (cfg : BenchCfg α) (i : ℕ) :
    ∀ ks (st : St α) (ref : Option α) k j (r : Option α) v,
      Ev.checkEv k j r v ∈ (kernelLoop cfg i ks st ref).1 →
      cfg.useCheck = true ∧ k ≠ 0 ∧ j = i ∧ cfg.kernelVal k i = .ok v := by
  intro ks
  induction ks with
  | nil =>
    intro st ref k j r v hm
    simp [kernelLoop] at hm
  | cons kh ks ih =>
    intro st ref k j r v hm
    cases hc : st.cutoff kh with
    | true =>
      cases hp : cfg.showProgress with
      | true =>
        rw [kernelLoop_skip_prog cfg i kh ks st ref hc hp] at hm
        exact ih st ref k j r v hm
      | false =>
        rw [kernelLoop_skip_noprog cfg i kh ks st ref hc hp] at hm
        simp at hm
    | false =>
      rcases hbody : kernelBody cfg i kh st ref with ⟨blog, res⟩
      cases res with
      | error err =>
        rw [kernelLoop_live_err cfg i kh ks st ref hc hbody] at hm
        obtain ⟨e1, e2, -, hkv, hu, hk⟩ :=
          kernelBody_checkEv cfg i kh st ref (by rw [hbody]; exact hm)
        exact ⟨hu, e1 ▸ hk, e2, by rw [e1]; exact hkv⟩
      | ok p =>
        rcases p with ⟨st₁, ref₁⟩
        rw [kernelLoop_live_ok cfg i kh ks st ref hc hbody] at hm
        rcases List.mem_append.mp hm with hm | hm
        · obtain ⟨e1, e2, -, hkv, hu, hk⟩ :=
            kernelBody_checkEv cfg i kh st ref (by rw [hbody]; exact hm)
          exact ⟨hu, e1 ▸ hk, e2, by rw [e1]; exact hkv⟩
        · exact ih st₁ ref₁ k j r v hm

/-- Origin of a kernel-loop error: the progress bug, a check invocation whose
outcome maps to this error, a raising kernel call, or the zero-division. -/
theorem kernelLoop_err {α : Type} (cfg : BenchCfg α) (i : ℕ) :
    ∀ ks (st : St α) (ref : Option α) (klog : List (Ev α)) (err : BenchError),
      kernelLoop cfg i ks st ref = (klog, .error err) →
      (err = .progressKeyError ∧ cfg.showProgress = false) ∨
      (∃ (k : ℕ) (r : Option α) (v : α), Ev.checkEv k i r v ∈ klog ∧ checkOut cfg r v k = .error err) ∨
      (∃ (k e : ℕ), Ev.call k i ∈ klog ∧ cfg.kernelVal k i = .error e ∧ err = .uncaught e) ∨
      err = .zeroDivisionError := by
  intro ks
  induction ks with
  | nil =>
    intro st ref klog err h
    rw [kernelLoop] at h
    injection h with h1 h2
    simp at h2
  | cons kh ks ih =>
    intro st ref klog err h
    cases hc : st.cutoff kh with
    | true =>
      rcases hp : cfg.showProgress with - | -
      · rw [kernelLoop_skip_noprog cfg i kh ks st ref hc hp] at h
        injection h with h1 h2
        injection h2 with h2
        exact Or.inl ⟨h2.symm, rfl⟩
      · rw [kernelLoop_skip_prog cfg i kh ks st ref hc hp] at h
        rcases ih st ref klog err h with ⟨-, hsp⟩ | hrest
        · rw [hp] at hsp
          simp at hsp
        · exact Or.inr hrest
    | false =>
      rcases hbody : kernelBody cfg i kh st ref with ⟨blog, res⟩
      cases res with
      | error err' =>
        rw [kernelLoop_live_err cfg i kh ks st ref hc hbody] at h
        injection h with h1 h2
        injection h2 with h2
        subst h1
        rw [← h2]
        rcases kernelBody_err cfg i kh st ref hbody with ⟨e, hkv, herr, hblog⟩ |
          ⟨val, hkv, hcs2, hblog⟩ | ⟨val, ref'', hkv, hcs2, h0, herr, hblog⟩
        · refine Or.inr (Or.inr (Or.inl ⟨kh, e, ?_, hkv, herr⟩))
          rw [hblog]
          exact List.mem_cons_self _ _
        · rcases checkStep_log cfg ref val kh i with ⟨-, r', hok⟩ | ⟨hl, -, -, hco⟩
          · rw [hok] at hcs2
            simp at hcs2
          · refine Or.inr (Or.inl ⟨kh, ref, val, ?_, by rw [← hco]; exact hcs2⟩)
            rw [hblog, hl]
            simp
        · exact Or.inr (Or.inr (Or.inr herr))
      | ok p =>
        rcases p with ⟨st₁, ref₁⟩
        rw [kernelLoop_live_ok cfg i kh ks st ref hc hbody] at h
        rcases hr : kernelLoop cfg i ks st₁ ref₁ with ⟨rlog, r⟩
        rw [hr] at h
        injection h with h1 h2
        subst h1
        cases r with
        | ok st'' => simp at h2
        | error err'' =>
          injection h2 with h2
          rw [← h2]
          rcases ih st₁ ref₁ rlog err'' hr with hcase | ⟨k, r', v, hm, hco⟩ |
            ⟨k, e, hm, hkv, herr⟩ | hz
          · exact Or.inl hcase
          · exact Or.inr (Or.inl ⟨k, r', v, List.mem_append_right _ hm, hco⟩)
          · exact Or.inr (Or.inr (Or.inl ⟨k, e, List.mem_append_right _ hm, hkv, herr⟩))
          · exact Or.inr (Or.inr (Or.inr hz))

/-- If a logged check invocation's outcome maps to an error, the whole kernel
loop aborts with exactly that error. -/
theorem kernelLoop_checkEv_out {α : Type} (cfg : BenchCfg α) (i : ℕ) :
    ∀ ks (st : St α) (ref : Option α) k j (r : Option α) v (err : BenchError),
      Ev.checkEv k j r v ∈ (kernelLoop cfg i ks st ref).1 →
      checkOut cfg r v k = .error err →
      (kernelLoop cfg i ks st ref).2 = .error err := by
  intro ks
  induction ks with
  | nil =>
    intro st ref k j r v err hm _
    simp [kernelLoop] at hm
  | cons kh ks ih =>
    intro st ref k j r v err hm hout
    cases hc : st.cutoff kh with
    | true =>
      cases hp : cfg.showProgress with
      | true =>
        rw [kernelLoop_skip_prog cfg i kh ks st ref hc hp] at hm ⊢
        exact ih st ref k j r v err hm hout
      | false =>
        rw [kernelLoop_skip_noprog cfg i kh ks st ref hc hp] at hm
        simp at hm
    | false =>
      rcases hbody : kernelBody cfg i kh st ref with ⟨blog, res⟩
      cases res with
      | error err' =>
        rw [kernelLoop_live_err cfg i kh ks st ref hc hbody] at hm ⊢
        have hb2 := kernelBody_checkEv_out cfg i kh st ref (by rw [hbody]; exact hm) hout
        rw [hbody] at hb2
        injection hb2 with hb2
        rw [hb2]
      | ok p =>
        rcases p with ⟨st₁, ref₁⟩
        rw [kernelLoop_live_ok cfg i kh ks st ref hc hbody] at hm ⊢
        rcases List.mem_append.mp hm with hm | hm
        · have hb2 := kernelBody_checkEv_out cfg i kh st ref (by rw [hbody]; exact hm) hout
          rw [hbody] at hb2
          simp at hb2
        · exact ih st₁ ref₁ k j r v err hm hout

/-- A logged one-shot call of a kernel whose oracle raises makes the whole
kernel loop abort with that exception, unmodified. -/
theorem kernelLoop_call_err {α : Type} (cfg : BenchCfg α) (i : ℕ) :
    ∀ ks (st : St α) (ref : Option α) k j e,
      Ev.call k j ∈ (kernelLoop cfg i ks st ref).1 → cfg.kernelVal k j = .error e →
      (kernelLoop cfg i ks st ref).2 = .error (.uncaught e) := by
  intro ks
  induction ks with
  | nil =>
    intro st ref k j e hm _
    simp [kernelLoop] at hm
  | cons kh ks ih =>
    intro st ref k j e hm hkv
    cases hc : st.cutoff kh with
    | true =>
      cases hp : cfg.showProgress with
      | true =>
        rw [kernelLoop_skip_prog cfg i kh ks st ref hc hp] at hm ⊢
        exact ih st ref k j e hm hkv
      | false =>
        rw [kernelLoop_skip_noprog cfg i kh ks st ref hc hp] at hm
        simp at hm
    | false =>
      rcases hbody : kernelBody cfg i kh st ref with ⟨blog, res⟩
      cases res with
      | error err' =>
        rw [kernelLoop_live_err cfg i kh ks st ref hc hbody] at hm ⊢
        obtain ⟨hker, hidx⟩ := mem_kernelBody_log cfg i kh st ref (by rw [hbody]; exact hm)
        simp [Ev.ker, Ev.idx] at hker hidx
        rw [hidx, hker] at hkv
        have := kernelBody_of_kernelErr cfg i kh st ref e hkv
        rw [hbody] at this
        injection this with t1 t2
        injection t2 with t2
        rw [t2]
      | ok p =>
        rcases p with ⟨st₁, ref₁⟩
        rw [kernelLoop_live_ok cfg i kh ks st ref hc hbody] at hm ⊢
        rcases List.mem_append.mp hm with hm | hm
        · obtain ⟨hker, hidx⟩ := mem_kernelBody_log cfg i kh st ref (by rw [hbody]; exact hm)
          simp [Ev.ker, Ev.idx] at hker hidx
          rw [hidx, hker] at hkv
          have := kernelBody_of_kernelErr cfg i kh st ref e hkv
          rw [hbody] at this
          simp at this
        · exact ih st₁ ref₁ k j e hm hkv

/-! ## Sweep-loop lemmas -/

theorem sweepLoop_interrupt {α : Type} (cfg : BenchCfg α) (i : ℕ) (n : ℤ) (rest : List ℤ)
    (st : St α) (h : cfg.interruptAfter = some i) :
    sweepLoop cfg i (n :: rest) st = ([], .ok (i, st)) := by
  rw [sweepLoop, if_pos h]

theorem sweepLoop_setup_err {α : Type} (cfg : BenchCfg α) (i : ℕ) (n : ℤ) (rest : List ℤ)
    (st : St α) (e : ℕ) (hni : ¬ cfg.interruptAfter = some i) (hs : cfg.setupExc i = some e) :
    sweepLoop cfg i (n :: rest) st = ([Ev.setupEv i], .error (.uncaught e)) := by
  rw [sweepLoop, if_neg hni, hs]

theorem sweepLoop_kl_err {α : Type} (cfg : BenchCfg α) (i : ℕ) (n : ℤ) (rest : List ℤ)
    (st : St α) {klog : List (Ev α)} {err : BenchError}
    (hni : ¬ cfg.interruptAfter = some i) (hs : cfg.setupExc i = none)
    (hkl : kernelLoop cfg i (List.range cfg.K) st none = (klog, .error err)) :
    sweepLoop cfg i (n :: rest) st = (Ev.setupEv i :: klog, .error err) := by
  rw [sweepLoop, if_neg hni, hs, hkl]

theorem sweepLoop_step_ok {α : Type} (cfg : BenchCfg α) (i : ℕ) (n : ℤ) (rest : List ℤ)
    (st : St α) {klog : List (Ev α)} {st' : St α}
    (hni : ¬ cfg.interruptAfter = some i) (hs : cfg.setupExc i = none)
    (hkl : kernelLoop cfg i (List.range cfg.K) st none = (klog, .ok st')) :
    sweepLoop cfg i (n :: rest) st
      = (Ev.setupEv i :: (klog ++ (sweepLoop cfg (i + 1) rest st').1),
         (sweepLoop cfg (i + 1) rest st').2) := by
  rw [sweepLoop, if_neg hni, hs, hkl]

/-- For kernel 0 with a configured check, the block only stores the output as
the new reference. -/
theorem checkStep_zero {α : Type} (cfg : BenchCfg α) (ref : Option α) (val : α) (i : ℕ)
    (hu : cfg.useCheck = true) :
    checkStep cfg ref val 0 i = ([], .ok (some val)) := by
  unfold checkStep
  rw [hu]
  simp

/-- Over the full kernel list with the per-size reset reference slot `none`:
every logged check invocation carries kernel 0's output at this size as its
reference when kernel 0 is live here, and the empty reference when kernel 0
was already cut off. -/
theorem kernelLoop_rangeK_ref {α : Type} (cfg : BenchCfg α) (i : ℕ) (st : St α)
    {k j : ℕ} {r : Option α} {v : α}
    (hm : Ev.checkEv k j r v ∈ (kernelLoop cfg i (List.range cfg.K) st none).1) :
    (st.cutoff 0 = true → r = none) ∧
    (st.cutoff 0 = false → ∃ v₀, cfg.kernelVal 0 i = Except.ok v₀ ∧ r = some v₀) := by
  rcases hK : cfg.K with - | K'
  · rw [hK] at hm
    simp [kernelLoop] at hm
  · have hrange : List.range cfg.K = 0 :: List.range' 1 K' := by
      rw [hK, List.range_eq_range', List.range'_succ]
    have h0nots : (0 : ℕ) ∉ List.range' 1 K' := by
      intro hmem
      have := List.mem_range'_1.mp hmem
      omega
    rw [hrange] at hm
    cases hcut0 : st.cutoff 0 with
    | true =>
      refine ⟨fun _ => ?_, fun hf => by simp at hf⟩
      cases hp : cfg.showProgress with
      | true =>
        rw [kernelLoop_skip_prog cfg i 0 _ st none hcut0 hp] at hm
        exact kernelLoop_ref cfg i (List.range' 1 K') st none h0nots k j r v hm
      | false =>
        rw [kernelLoop_skip_noprog cfg i 0 _ st none hcut0 hp] at hm
        simp at hm
    | false =>
      refine ⟨fun ht => by simp at ht, fun _ => ?_⟩
      rcases hbody : kernelBody cfg i 0 st none with ⟨blog, res⟩
      cases res with
      | error err =>
        rw [kernelLoop_live_err cfg i 0 _ st none hcut0 hbody] at hm
        obtain ⟨-, -, -, -, -, hk0⟩ :=
          kernelBody_checkEv cfg i 0 st none (by rw [hbody]; exact hm)
        exact absurd rfl hk0
      | ok p =>
        rcases p with ⟨st₁, ref₁⟩
        rw [kernelLoop_live_ok cfg i 0 _ st none hcut0 hbody] at hm
        rcases List.mem_append.mp hm with hm | hm
        · obtain ⟨-, -, -, -, -, hk0⟩ :=
            kernelBody_checkEv cfg i 0 st none (by rw [hbody]; exact hm)
          exact absurd rfl hk0
        · have hu : cfg.useCheck = true :=
            (kernelLoop_checkEv cfg i (List.range' 1 K') st₁ ref₁ k j r v hm).1
          obtain ⟨val, hkv, hcs2, -, -, -⟩ := kernelBody_ok cfg i 0 st none hbody
          rw [checkStep_zero cfg none val i hu] at hcs2
          simp at hcs2
          have hr := kernelLoop_ref cfg i (List.range' 1 K') st₁ ref₁ h0nots k j r v hm
          exact ⟨val, hkv, by rw [hr, ← hcs2]⟩

/-- The invariant holds at sweep start. -/
theorem traceInv_init {α : Type} (cfg : BenchCfg α) : TraceInv cfg [] 0 (initSt α) where
  idx_lt := by intro e he; simp at he
  flag_iff := by intro k; simp [initSt]
  cell_none_iff := by intro k _ j hj; omega
  cell_val := by intro k j; exact Or.inl rfl
  cell_future := by intro k j _; rfl
  cell_hi := by intro k _ j; rfl
  call_live := by intro k j hm; simp at hm
  cal_live := by intro k j r hm; simp at hm
  check_props := by intro k j r v hm; simp at hm

/-- One fully completed size preserves the sweep invariant. -/
theorem traceInv_step {α : Type} (cfg : BenchCfg α) {log : List (Ev α)} {i : ℕ} {st : St α}
    {klog : List (Ev α)} {st' : St α}
    (hInv : TraceInv cfg log i st)
    (hkl : kernelLoop cfg i (List.range cfg.K) st none = (klog, .ok st')) :
    TraceInv cfg (log ++ (Ev.setupEv i :: klog)) (i + 1) st' := by
  have hnd := List.nodup_range cfg.K
  obtain ⟨ha, hb, hc⟩ := kernelLoop_ok_state cfg i (List.range cfg.K) st none klog st' hkl hnd
  have hev : ∀ e ∈ klog,
      Ev.idx e = i ∧ ∃ k, Ev.ker e = some k ∧ k < cfg.K ∧ st.cutoff k = false := by
    intro e he
    obtain ⟨hidx, k, hker, hmem, hcut⟩ :=
      kernelLoop_events cfg i (List.range cfg.K) st none hnd e (by rw [hkl]; exact he)
    exact ⟨hidx, k, hker, List.mem_range.mp hmem, hcut⟩
  have hnew_k : ∀ k j, Ev.cutoffSet k j ∈ klog → j = i ∧ k < cfg.K ∧ st.cutoff k = false := by
    intro k j hm
    obtain ⟨hidx, k', hker, hkK, hcut⟩ := hev _ hm
    have hkk : k = k' := by simpa [Ev.ker] using hker
    subst hkk
    exact ⟨by simpa [Ev.idx] using hidx, hkK, hcut⟩
  have hnew_call : ∀ k j, Ev.call k j ∈ klog → j = i ∧ k < cfg.K ∧ st.cutoff k = false := by
    intro k j hm
    obtain ⟨hidx, k', hker, hkK, hcut⟩ := hev _ hm
    have hkk : k = k' := by simpa [Ev.ker] using hker
    subst hkk
    exact ⟨by simpa [Ev.idx] using hidx, hkK, hcut⟩
  have hnew_cal : ∀ k j r, Ev.cal k j r ∈ klog → j = i ∧ k < cfg.K ∧ st.cutoff k = false := by
    intro k j r hm
    obtain ⟨hidx, k', hker, hkK, hcut⟩ := hev _ hm
    have hkk : k = k' := by simpa [Ev.ker] using hker
    subst hkk
    exact ⟨by simpa [Ev.idx] using hidx, hkK, hcut⟩
  have hnew_check : ∀ k j (r : Option α) v,
      Ev.checkEv k j r v ∈ klog → j = i ∧ k < cfg.K ∧ st.cutoff k = false := by
    intro k j r v hm
    obtain ⟨hidx, k', hker, hkK, hcut⟩ := hev _ hm
    have hkk : k = k' := by simpa [Ev.ker] using hker
    subst hkk
    exact ⟨by simpa [Ev.idx] using hidx, hkK, hcut⟩
  have hold_lt : ∀ k j, Ev.cutoffSet k j ∈ log → j < i := by
    intro k j hm
    simpa [Ev.idx] using hInv.idx_lt _ hm
  have hsplit : ∀ (k j : ℕ), j ≤ i →
      ((∃ j', j' < j ∧ Ev.cutoffSet k j' ∈ log ++ (Ev.setupEv i :: klog)) ↔
        (∃ j', j' < j ∧ Ev.cutoffSet k j' ∈ log)) := by
    intro k j hj
    constructor
    · rintro ⟨j', hj', hm⟩
      rcases List.mem_append.mp hm with hm | hm
      · exact ⟨j', hj', hm⟩
      · rcases List.mem_cons.mp hm with hm | hm
        · exact absurd hm (by simp)
        · obtain ⟨hidx, -, -⟩ := hnew_k k j' hm
          omega
    · rintro ⟨j', hj', hm⟩
      exact ⟨j', hj', List.mem_append_left _ hm⟩
  refine ⟨?_, ?_, ?_, ?_, ?_, ?_, ?_, ?_, ?_⟩
  · -- idx_lt
    intro e he
    rcases List.mem_append.mp he with he | he
    · exact Nat.lt_succ_of_lt (hInv.idx_lt e he)
    · rcases List.mem_cons.mp he with rfl | he
      · simp [Ev.idx]
      · rw [(hev e he).1]
        omega
  · -- flag_iff
    intro k
    by_cases hkK : k < cfg.K
    · cases hcut : st.cutoff k with
      | true =>
        rw [(hb k (List.mem_range.mpr hkK) hcut).2]
        constructor
        · intro _
          obtain ⟨j, hm⟩ := (hInv.flag_iff k).mp hcut
          exact ⟨j, List.mem_append_left _ hm⟩
        · intro _
          rfl
      | false =>
        obtain ⟨-, -, -, hflag', hiff, -⟩ := hc k (List.mem_range.mpr hkK) hcut
        rw [hflag']
        constructor
        · intro hhit
          exact ⟨i, List.mem_append_right _ (List.mem_cons_of_mem _ (hiff.mpr hhit))⟩
        · rintro ⟨j, hm⟩
          rcases List.mem_append.mp hm with hm | hm
          · exact absurd ((hInv.flag_iff k).mpr ⟨j, hm⟩) (by rw [hcut]; simp)
          · rcases List.mem_cons.mp hm with heq | hmk
            · exact absurd heq (by simp)
            · obtain ⟨hji, -, -⟩ := hnew_k k j hmk
              subst hji
              exact hiff.mp hmk
    · have hnotin : k ∉ List.range cfg.K := by
        rw [List.mem_range]
        omega
      rw [(ha k hnotin).2, hInv.flag_iff k]
      constructor
      · rintro ⟨j, hm⟩
        exact ⟨j, List.mem_append_left _ hm⟩
      · rintro ⟨j, hm⟩
        rcases List.mem_append.mp hm with hm | hm
        · exact ⟨j, hm⟩
        · rcases List.mem_cons.mp hm with hm | hm
          · exact absurd hm (by simp)
          · obtain ⟨-, hkK', -⟩ := hnew_k k j hm
            omega
  · -- cell_none_iff
    intro k hkK j hj
    rcases Nat.lt_succ_iff_lt_or_eq.mp hj with hji | rfl
    · have hteq : st'.timings k j = st.timings k j := by
        cases hcut : st.cutoff k with
        | true => exact (hb k (List.mem_range.mpr hkK) hcut).1 j
        | false => exact (hc k (List.mem_range.mpr hkK) hcut).2.2.1 j (Nat.ne_of_lt hji)
      rw [hteq, hInv.cell_none_iff k hkK j hji, ← hsplit k j (le_of_lt hji)]
    · cases hcut : st.cutoff k with
      | true =>
        rw [(hb k (List.mem_range.mpr hkK) hcut).1 j, hInv.cell_future k j le_rfl]
        constructor
        · intro _
          obtain ⟨j₀, hm⟩ := (hInv.flag_iff k).mp hcut
          exact ⟨j₀, hold_lt k j₀ hm, List.mem_append_left _ hm⟩
        · intro _
          rfl
      | false =>
        obtain ⟨htimi, -, -, -, -, -⟩ := hc k (List.mem_range.mpr hkK) hcut
        rw [htimi]
        constructor
        · intro hcontra
          simp at hcontra
        · intro hex
          obtain ⟨j', hj', hm⟩ := (hsplit k j le_rfl).mp hex
          exact absurd ((hInv.flag_iff k).mpr ⟨j', hm⟩) (by rw [hcut]; simp)
  · -- cell_val
    intro k j
    by_cases hkK : k < cfg.K
    · cases hcut : st.cutoff k with
      | true =>
        rw [(hb k (List.mem_range.mpr hkK) hcut).1 j]
        exact hInv.cell_val k j
      | false =>
        by_cases hji : j = i
        · subst hji
          obtain ⟨htimi, h0, -, -, -, -⟩ := hc k (List.mem_range.mpr hkK) hcut
          exact Or.inr ⟨htimi, h0⟩
        · rw [(hc k (List.mem_range.mpr hkK) hcut).2.2.1 j hji]
          exact hInv.cell_val k j
    · have hnotin : k ∉ List.range cfg.K := by
        rw [List.mem_range]
        omega
      rw [(ha k hnotin).1 j]
      exact hInv.cell_val k j
  · -- cell_future
    intro k j hij
    have hji : j ≠ i := by omega
    have hij' : i ≤ j := by omega
    by_cases hkK : k < cfg.K
    · cases hcut : st.cutoff k with
      | true =>
        rw [(hb k (List.mem_range.mpr hkK) hcut).1 j]
        exact hInv.cell_future k j hij'
      | false =>
        rw [(hc k (List.mem_range.mpr hkK) hcut).2.2.1 j hji]
        exact hInv.cell_future k j hij'
    · have hnotin : k ∉ List.range cfg.K := by
        rw [List.mem_range]
        omega
      rw [(ha k hnotin).1 j]
      exact hInv.cell_future k j hij'
  · -- cell_hi
    intro k hkK j
    have hnotin : k ∉ List.range cfg.K := by
      rw [List.mem_range]
      omega
    rw [(ha k hnotin).1 j]
    exact hInv.cell_hi k hkK j
  · -- call_live
    intro k j hm hex
    rcases List.mem_append.mp hm with hm | hm
    · have hjlt : j < i := by simpa [Ev.idx] using hInv.idx_lt _ hm
      exact hInv.call_live k j hm ((hsplit k j (le_of_lt hjlt)).mp hex)
    · rcases List.mem_cons.mp hm with hm | hm
      · exact absurd hm (by simp)
      · obtain ⟨hji, -, hcut⟩ := hnew_call k j hm
        subst hji
        obtain ⟨j', hj', hm'⟩ := (hsplit k j le_rfl).mp hex
        exact absurd ((hInv.flag_iff k).mpr ⟨j', hm'⟩) (by rw [hcut]; simp)
  · -- cal_live
    intro k j r hm hex
    rcases List.mem_append.mp hm with hm | hm
    · have hjlt : j < i := by simpa [Ev.idx] using hInv.idx_lt _ hm
      exact hInv.cal_live k j r hm ((hsplit k j (le_of_lt hjlt)).mp hex)
    · rcases List.mem_cons.mp hm with hm | hm
      · exact absurd hm (by simp)
      · obtain ⟨hji, -, hcut⟩ := hnew_cal k j r hm
        subst hji
        obtain ⟨j', hj', hm'⟩ := (hsplit k j le_rfl).mp hex
        exact absurd ((hInv.flag_iff k).mpr ⟨j', hm'⟩) (by rw [hcut]; simp)
  · -- check_props
    intro k j r v hm
    rcases List.mem_append.mp hm with hm | hm
    · have hjlt : j < i := by simpa [Ev.idx] using hInv.idx_lt _ hm
      obtain ⟨p0, p1, p2, p3⟩ := hInv.check_props k j r v hm
      refine ⟨p0, fun hex => p1 ((hsplit k j (le_of_lt hjlt)).mp hex), ?_, ?_⟩
      · intro hex
        exact p2 ((hsplit 0 j (le_of_lt hjlt)).mp hex)
      · intro hnex
        exact p3 (fun hex => hnex ((hsplit 0 j (le_of_lt hjlt)).mpr hex))
    · rcases List.mem_cons.mp hm with heq | hmk
      · exact absurd heq (by simp)
      · obtain ⟨hji, -, hcut⟩ := hnew_check k j r v hmk
        subst hji
        obtain ⟨q1, q2⟩ := kernelLoop_rangeK_ref cfg j st (by rw [hkl]; exact hmk)
        have hk0 : 0 < k := Nat.pos_of_ne_zero
          (kernelLoop_checkEv cfg j (List.range cfg.K) st none k j r v
            (by rw [hkl]; exact hmk)).2.1
        refine ⟨hk0, ?_, ?_, ?_⟩
        · intro hex
          obtain ⟨j', hj', hm'⟩ := (hsplit k j le_rfl).mp hex
          exact absurd ((hInv.flag_iff k).mpr ⟨j', hm'⟩) (by rw [hcut]; simp)
        · intro hex
          obtain ⟨j', hj', hm'⟩ := (hsplit 0 j le_rfl).mp hex
          exact q1 ((hInv.flag_iff 0).mpr ⟨j', hm'⟩)
        · intro hnex
          have hcut0 : st.cutoff 0 = false := by
            cases hc0 : st.cutoff 0 with
            | false => rfl
            | true =>
              obtain ⟨j₀, hm₀⟩ := (hInv.flag_iff 0).mp hc0
              exact absurd ⟨j₀, hold_lt 0 j₀ hm₀, List.mem_append_left _ hm₀⟩ hnex
          exact q2 hcut0

/-- Master lemma for a sweep that returns a result: the invariant holds at
the final state over the full trace, and the completed count is the full
length unless the run stopped exactly at the interruption point. -/
theorem sweepLoop_ok_inv {α : Type} (cfg : BenchCfg α) :
    ∀ (ns : List ℤ) (i : ℕ) (st : St α) (log₀ : List (Ev α)),
      TraceInv cfg log₀ i st →
      ∀ (slog : List (Ev α)) (m : ℕ) (st' : St α),
        sweepLoop cfg i ns st = (slog, .ok (m, st')) →
        TraceInv cfg (log₀ ++ slog) m st' ∧ i ≤ m ∧ m ≤ i + ns.length ∧
        (m = i + ns.length ∨ cfg.interruptAfter = some m) ∧
        (∀ m₀, cfg.interruptAfter = some m₀ → i ≤ m₀ → m ≤ m₀) := by
  intro ns
  induction ns with
  | nil =>
    intro i st log₀ hInv slog m st' h
    rw [sweepLoop] at h
    injection h with h1 h2
    injection h2 with h2
    injection h2 with h2a h2b
    subst h1
    subst h2a
    subst h2b
    rw [List.append_nil]
    exact ⟨hInv, le_rfl, by simp, Or.inl (by simp), fun m₀ _ hle => hle⟩
  | cons n rest ih =>
    intro i st log₀ hInv slog m st' h
    by_cases hni : cfg.interruptAfter = some i
    · rw [sweepLoop_interrupt cfg i n rest st hni] at h
      injection h with h1 h2
      injection h2 with h2
      injection h2 with h2a h2b
      subst h1
      subst h2a
      subst h2b
      rw [List.append_nil]
      exact ⟨hInv, le_rfl, by simp, Or.inr hni, fun m₀ _ hle => hle⟩
    · cases hs : cfg.setupExc i with
      | some e =>
        rw [sweepLoop_setup_err cfg i n rest st e hni hs] at h
        injection h with h1 h2
        simp at h2
      | none =>
        rcases hkl : kernelLoop cfg i (List.range cfg.K) st none with ⟨klog, kres⟩
        cases kres with
        | error err =>
          rw [sweepLoop_kl_err cfg i n rest st hni hs hkl] at h
          injection h with h1 h2
          simp at h2
        | ok st₁ =>
          rw [sweepLoop_step_ok cfg i n rest st hni hs hkl] at h
          rcases hr : sweepLoop cfg (i + 1) rest st₁ with ⟨rlog, r⟩
          rw [hr] at h
          injection h with h1 h2
          subst h1
          cases r with
          | error e => simp at h2
          | ok p =>
            rcases p with ⟨m', st''⟩
            injection h2 with h2
            injection h2 with h2a h2b
            subst h2a
            subst h2b
            have hInv₁ := traceInv_step cfg hInv hkl
            obtain ⟨hInvf, hle1, hle2, hdisj, hm₀⟩ :=
              ih (i + 1) st₁ (log₀ ++ (Ev.setupEv i :: klog)) hInv₁ rlog m' st'' hr
            refine ⟨?_, by omega, by simp [List.length_cons]; omega, ?_, ?_⟩
            · have hassoc : log₀ ++ (Ev.setupEv i :: (klog ++ rlog))
                  = (log₀ ++ (Ev.setupEv i :: klog)) ++ rlog := by
                simp
              rw [hassoc]
              exact hInvf
            · rcases hdisj with hfull | hint
              · left
                simp [List.length_cons]
                omega
              · right
                exact hint
            · intro m₀ heq hle
              have hne : i ≠ m₀ := fun hcontra => hni (by rw [hcontra]; exact heq)
              exact hm₀ m₀ heq (by omega)

/-- Origin of a sweep error: the progress bug, a check invocation whose
outcome maps to the error, a raising kernel call, a raising generator call,
or the zero-division. -/
theorem sweepLoop_err {α : Type} (cfg : BenchCfg α) :
    ∀ (ns : List ℤ) (i : ℕ) (st : St α) (slog : List (Ev α)) (err : BenchError),
      sweepLoop cfg i ns st = (slog, .error err) →
      (err = .progressKeyError ∧ cfg.showProgress = false) ∨
      (∃ (k j : ℕ) (r : Option α) (v : α),
        Ev.checkEv k j r v ∈ slog ∧ checkOut cfg r v k = .error err) ∨
      (∃ (k j e : ℕ), Ev.call k j ∈ slog ∧ cfg.kernelVal k j = .error e ∧ err = .uncaught e) ∨
      (∃ (j e : ℕ), Ev.setupEv j ∈ slog ∧ cfg.setupExc j = some e ∧ err = .uncaught e) ∨
      err = .zeroDivisionError := by
  intro ns
  induction ns with
  | nil =>
    intro i st slog err h
    rw [sweepLoop] at h
    injection h with h1 h2
    simp at h2
  | cons n rest ih =>
    intro i st slog err h
    by_cases hni : cfg.interruptAfter = some i
    · rw [sweepLoop_interrupt cfg i n rest st hni] at h
      injection h with h1 h2
      simp at h2
    · cases hs : cfg.setupExc i with
      | some e =>
        rw [sweepLoop_setup_err cfg i n rest st e hni hs] at h
        injection h with h1 h2
        injection h2 with h2
        subst h1
        refine Or.inr (Or.inr (Or.inr (Or.inl ⟨i, e, ?_, hs, h2.symm⟩)))
        exact List.mem_singleton_self _
      | none =>
        rcases hkl : kernelLoop cfg i (List.range cfg.K) st none with ⟨klog, kres⟩
        cases kres with
        | error err' =>
          rw [sweepLoop_kl_err cfg i n rest st hni hs hkl] at h
          injection h with h1 h2
          injection h2 with h2
          subst h1
          rw [← h2]
          rcases kernelLoop_err cfg i (List.range cfg.K) st none klog err' hkl with
            hcase | ⟨k, r, v, hm, hco⟩ | ⟨k, e, hm, hkv, herr⟩ | hz
          · exact Or.inl hcase
          · exact Or.inr (Or.inl ⟨k, i, r, v, List.mem_cons_of_mem _ hm, hco⟩)
          · exact Or.inr (Or.inr (Or.inl ⟨k, i, e, List.mem_cons_of_mem _ hm, hkv, herr⟩))
          · exact Or.inr (Or.inr (Or.inr (Or.inr hz)))
        | ok st₁ =>
          rw [sweepLoop_step_ok cfg i n rest st hni hs hkl] at h
          rcases hr : sweepLoop cfg (i + 1) rest st₁ with ⟨rlog, r⟩
          rw [hr] at h
          injection h with h1 h2
          subst h1
          cases r with
          | ok p => simp at h2
          | error err'' =>
            injection h2 with h2
            rw [← h2]
            rcases ih (i + 1) st₁ rlog err'' hr with
              hcase | ⟨k, j, r', v, hm, hco⟩ | ⟨k, j, e, hm, hkv, herr⟩ |
              ⟨j, e, hm, hse, herr⟩ | hz
            · exact Or.inl hcase
            · refine Or.inr (Or.inl ⟨k, j, r', v, ?_, hco⟩)
              exact List.mem_cons_of_mem _ (List.mem_append_right _ hm)
            · refine Or.inr (Or.inr (Or.inl ⟨k, j, e, ?_, hkv, herr⟩))
              exact List.mem_cons_of_mem _ (List.mem_append_right _ hm)
            · refine Or.inr (Or.inr (Or.inr (Or.inl ⟨j, e, ?_, hse, herr⟩)))
              exact List.mem_cons_of_mem _ (List.mem_append_right _ hm)
            · exact Or.inr (Or.inr (Or.inr (Or.inr hz)))

/-- A logged check invocation whose outcome maps to an error decides the
whole sweep's result. -/
theorem sweepLoop_checkEv_out {α : Type} (cfg : BenchCfg α) :
    ∀ (ns : List ℤ) (i : ℕ) (st : St α) k j (r : Option α) v (err : BenchError),
      Ev.checkEv k j r v ∈ (sweepLoop cfg i ns st).1 →
      checkOut cfg r v k = .error err →
      (sweepLoop cfg i ns st).2 = .error err := by
  intro ns
  induction ns with
  | nil =>
    intro i st k j r v err hm _
    rw [sweepLoop] at hm
    simp at hm
  | cons n rest ih =>
    intro i st k j r v err hm hout
    by_cases hni : cfg.interruptAfter = some i
    · rw [sweepLoop_interrupt cfg i n rest st hni] at hm
      simp at hm
    · cases hs : cfg.setupExc i with
      | some e =>
        rw [sweepLoop_setup_err cfg i n rest st e hni hs] at hm
        simp at hm
      | none =>
        rcases hkl : kernelLoop cfg i (List.range cfg.K) st none with ⟨klog, kres⟩
        cases kres with
        | error err' =>
          rw [sweepLoop_kl_err cfg i n rest st hni hs hkl] at hm ⊢
          rcases List.mem_cons.mp hm with heq | hmk
          · exact absurd heq (by simp)
          · have := kernelLoop_checkEv_out cfg i (List.range cfg.K) st none k j r v err
              (by rw [hkl]; exact hmk) hout
            rw [hkl] at this
            injection this with this
            rw [this]
        | ok st₁ =>
          rw [sweepLoop_step_ok cfg i n rest st hni hs hkl] at hm ⊢
          rcases List.mem_cons.mp hm with heq | hmk
          · exact absurd heq (by simp)
          · rcases List.mem_append.mp hmk with hmk | hmk
            · have := kernelLoop_checkEv_out cfg i (List.range cfg.K) st none k j r v err
                (by rw [hkl]; exact hmk) hout
              rw [hkl] at this
              simp at this
            · exact ih (i + 1) st₁ k j r v err hmk hout

/-- A logged one-shot call of a kernel whose oracle raises decides the whole
sweep's result: the exception propagates unmodified. -/
theorem sweepLoop_call_out {α : Type} (cfg : BenchCfg α) :
    ∀ (ns : List ℤ) (i : ℕ) (st : St α) k j (e : ℕ),
      Ev.call k j ∈ (sweepLoop cfg i ns st).1 → cfg.kernelVal k j = .error e →
      (sweepLoop cfg i ns st).2 = .error (.uncaught e) := by
  intro ns
  induction ns with
  | nil =>
    intro i st k j e hm _
    rw [sweepLoop] at hm
    simp at hm
  | cons n rest ih =>
    intro i st k j e hm hkv
    by_cases hni : cfg.interruptAfter = some i
    · rw [sweepLoop_interrupt cfg i n rest st hni] at hm
      simp at hm
    · cases hs : cfg.setupExc i with
      | some e' =>
        rw [sweepLoop_setup_err cfg i n rest st e' hni hs] at hm
        simp at hm
      | none =>
        rcases hkl : kernelLoop cfg i (List.range cfg.K) st none with ⟨klog, kres⟩
        cases kres with
        | error err' =>
          rw [sweepLoop_kl_err cfg i n rest st hni hs hkl] at hm ⊢
          rcases List.mem_cons.mp hm with heq | hmk
          · exact absurd heq (by simp)
          · have := kernelLoop_call_err cfg i (List.range cfg.K) st none k j e
              (by rw [hkl]; exact hmk) hkv
            rw [hkl] at this
            injection this with this
            rw [this]
        | ok st₁ =>
          rw [sweepLoop_step_ok cfg i n rest st hni hs hkl] at hm ⊢
          rcases List.mem_cons.mp hm with heq | hmk
          · exact absurd heq (by simp)
          · rcases List.mem_append.mp hmk with hmk | hmk
            · have := kernelLoop_call_err cfg i (List.range cfg.K) st none k j e
                (by rw [hkl]; exact hmk) hkv
              rw [hkl] at this
              simp at this
            · exact ih (i + 1) st₁ k j e hmk hkv

/-- A logged generator invocation whose oracle raises decides the whole
sweep's result: the exception propagates unmodified. -/
theorem sweepLoop_setup_out {α : Type} (cfg : BenchCfg α) :
    ∀ (ns : List ℤ) (i : ℕ) (st : St α) (j e : ℕ),
      Ev.setupEv j ∈ (sweepLoop cfg i ns st).1 → cfg.setupExc j = some e →
      (sweepLoop cfg i ns st).2 = .error (.uncaught e) := by
  intro ns
  induction ns with
  | nil =>
    intro i st j e hm _
    rw [sweepLoop] at hm
    simp at hm
  | cons n rest ih =>
    intro i st j e hm hse
    by_cases hni : cfg.interruptAfter = some i
    · rw [sweepLoop_interrupt cfg i n rest st hni] at hm
      simp at hm
    · have hkerNone : ∀ klog' (res' : Except BenchError (St α)),
          kernelLoop cfg i (List.range cfg.K) st none = (klog', res') →
          Ev.setupEv j ∉ klog' := by
        intro klog' res' hkl' hmk
        obtain ⟨-, k', hker, -, -⟩ := kernelLoop_events cfg i (List.range cfg.K) st none
          (List.nodup_range cfg.K) (Ev.setupEv j) (by rw [hkl']; exact hmk)
        simp [Ev.ker] at hker
      cases hs : cfg.setupExc i with
      | some e' =>
        rw [sweepLoop_setup_err cfg i n rest st e' hni hs] at hm ⊢
        simp at hm
        rw [hm] at hse
        rw [hse] at hs
        injection hs with hs
        rw [hs]
      | none =>
        rcases hkl : kernelLoop cfg i (List.range cfg.K) st none with ⟨klog, kres⟩
        cases kres with
        | error err' =>
          rw [sweepLoop_kl_err cfg i n rest st hni hs hkl] at hm ⊢
          rcases List.mem_cons.mp hm with heq | hmk
          · injection heq with heq
            rw [heq] at hse
            rw [hse] at hs
            simp at hs
          · exact absurd hmk (hkerNone klog (.error err') hkl)
        | ok st₁ =>
          rw [sweepLoop_step_ok cfg i n rest st hni hs hkl] at hm ⊢
          rcases List.mem_cons.mp hm with heq | hmk
          · injection heq with heq
            rw [heq] at hse
            rw [hse] at hs
            simp at hs
          · rcases List.mem_append.mp hmk with hmk | hmk
            · exact absurd hmk (hkerNone klog (.ok st₁) hkl)
            · exact ih (i + 1) st₁ j e hmk hse

/-! ## Bench-level inversion and helper lemmas -/

theorem bench_ok_inv {α : Type} (cfg : BenchCfg α) {log : List (Ev α)} {data : PerfplotData}
    (h : bench cfg = (log, .ok data)) :
    ∃ m st', sweepLoop cfg 0 cfg.nRange (initSt α) = (log, .ok (m, st')) ∧
      data = { n_range := cfg.nRange.take m
             , timings := (List.range cfg.K).map fun k =>
                 (List.range m).map fun i => st'.timings k i
             , flop := cfg.flops.map fun f => cfg.nRange.map f
             , labels := cfg.labels } := by
  unfold bench at h
  split at h
  next log' e heq => simp at h
  next log' m st' heq =>
    injection h with h1 h2
    injection h2 with h2
    subst h1
    exact ⟨m, st', heq, h2.symm⟩

theorem bench_err_inv {α : Type} (cfg : BenchCfg α) {log : List (Ev α)} {err : BenchError}
    (h : bench cfg = (log, .error err)) :
    sweepLoop cfg 0 cfg.nRange (initSt α) = (log, .error err) := by
  unfold bench at h
  split at h
  next log' e heq =>
    injection h with h1 h2
    injection h2 with h2
    subst h1
    rw [← h2]
    exact heq
  next log' m st' heq => simp at h

theorem bench_of_sweep_err {α : Type} (cfg : BenchCfg α) {log : List (Ev α)} {err : BenchError}
    (h : sweepLoop cfg 0 cfg.nRange (initSt α) = (log, .error err)) :
    bench cfg = (log, .error err) := by
  unfold bench
  rw [h]

/-- Indexing a map over `List.range`. -/
theorem getD_map_range {β : Type} (f : ℕ → β) (n k : ℕ) (hk : k < n) (d : β) :
    ((List.range n).map f).getD k d = f k := by
  rw [List.getD_eq_getElem?_getD, List.getElem?_map, List.getElem?_range hk]
  rfl

/-- Indexing a map over `List.range` out of bounds. -/
theorem getD_map_range_hi {β : Type} (f : ℕ → β) (n k : ℕ) (hk : n ≤ k) (d : β) :
    ((List.range n).map f).getD k d = d := by
  apply List.getD_eq_default
  simpa using hk

/-- The value recorded into a cell is positive whenever the one-shot time is
nonzero and the calibrator oracle returns positive estimates. -/
theorem cellValue_pos {α : Type} (cfg : BenchCfg α) (k i : ℕ)
    (hcal : ∀ k' i' r, 0 < cfg.calRes k' i' r) (h0 : cfg.oneShot k i ≠ 0) :
    0 < cellValue cfg k i := by
  unfold cellValue
  split_ifs
  · exact lt_min (Nat.pos_of_ne_zero h0) (hcal k i (repCount cfg k i).toNat)
  · exact Nat.pos_of_ne_zero h0

/-- Without a configured check, the check block is skipped. -/
theorem checkStep_not {α : Type} (cfg : BenchCfg α) (ref : Option α) (val : α) (k i : ℕ)
    (h : cfg.useCheck = false) : checkStep cfg ref val k i = ([], .ok ref) := by
  unfold checkStep
  rw [h]
  simp

/-- Under benign oracles (no configured check, progress enabled, kernels
returning values, nonzero one-shot times) the kernel loop always succeeds. -/
theorem kernelLoop_no_error {α : Type} (cfg : BenchCfg α) (i : ℕ)
    (hchk : cfg.useCheck = false) (hprog : cfg.showProgress = true)
    (hker : ∀ k j, ∃ v, cfg.kernelVal k j = Except.ok v)
    (hone : ∀ k j, cfg.oneShot k j ≠ 0) :
    ∀ ks (st : St α) (ref : Option α),
      ∃ klog st', kernelLoop cfg i ks st ref = (klog, .ok st') := by
  intro ks
  induction ks with
  | nil =>
    intro st ref
    exact ⟨[], st, by rw [kernelLoop]⟩
  | cons k ks ih =>
    intro st ref
    cases hc : st.cutoff k with
    | true =>
      obtain ⟨klog, st', hkl⟩ := ih st ref
      exact ⟨klog, st', by rw [kernelLoop_skip_prog cfg i k ks st ref hc hprog, hkl]⟩
    | false =>
      obtain ⟨v, hv⟩ := hker k i
      have hbody : kernelBody cfg i k st ref
          = (Ev.call k i :: ([] ++ cutLog cfg k i ++ calLog cfg k i),
             .ok (⟨bodyTimings cfg k i st, bodyCutoff cfg k i st⟩, ref)) := by
        unfold kernelBody
        simp only [hv, checkStep_not cfg ref v k i hchk, if_neg (hone k i)]
      obtain ⟨klog, st', hkl⟩ :=
        ih ⟨bodyTimings cfg k i st, bodyCutoff cfg k i st⟩ ref
      refine ⟨(Ev.call k i :: ([] ++ cutLog cfg k i ++ calLog cfg k i)) ++ klog, st', ?_⟩
      rw [kernelLoop_live_ok cfg i k ks st ref hc hbody, hkl]

/-- Under the same benign oracles with a cancellation scheduled at `m`, the
sweep completes exactly `min m (i + ns.length)` sizes. -/
theorem sweepLoop_no_error {α : Type} (cfg : BenchCfg α) (m : ℕ)
    (hint : cfg.interruptAfter = some m)
    (hchk : cfg.useCheck = false) (hprog : cfg.showProgress = true)
    (hker : ∀ k j, ∃ v, cfg.kernelVal k j = Except.ok v)
    (hone : ∀ k j, cfg.oneShot k j ≠ 0)
    (hsetup : ∀ j, cfg.setupExc j = none) :
    ∀ (ns : List ℤ) (i : ℕ) (st : St α), i ≤ m →
      ∃ slog st', sweepLoop cfg i ns st = (slog, .ok (min m (i + ns.length), st')) := by
  intro ns
  induction ns with
  | nil =>
    intro i st him
    refine ⟨[], st, ?_⟩
    rw [sweepLoop]
    have hmin : min m (i + ([] : List ℤ).length) = i := by
      simp only [List.length_nil, Nat.add_zero]
      omega
    rw [hmin]
  | cons n rest ih =>
    intro i st him
    by_cases heq : i = m
    · subst heq
      refine ⟨[], st, ?_⟩
      rw [sweepLoop_interrupt cfg i n rest st hint]
      have hmin : min i (i + (n :: rest).length) = i :=
        Nat.min_eq_left (Nat.le_add_right i _)
      rw [hmin]
    · have hni : ¬ cfg.interruptAfter = some i := by
        rw [hint]
        intro hcontra
        injection hcontra with hcontra
        omega
      obtain ⟨klog, st₁, hkl⟩ :=
        kernelLoop_no_error cfg i hchk hprog hker hone (List.range cfg.K) st none
      obtain ⟨rlog, st', hrest⟩ := ih (i + 1) st₁ (by omega)
      refine ⟨Ev.setupEv i :: (klog ++ rlog), st', ?_⟩
      rw [sweepLoop_step_ok cfg i n rest st hni (hsetup i) hkl, hrest]
      have : min m (i + 1 + rest.length) = min m (i + (n :: rest).length) := by
        simp [List.length_cons]
        omega
      rw [this]

/-- With progress disabled, a kernel loop can only succeed if no kernel in
its list entered with a set cutoff flag. -/
theorem kernelLoop_ok_noprog {α : Type} (cfg : BenchCfg α) (i : ℕ)
    (hp : cfg.showProgress = false) :
    ∀ ks (st : St α) (ref : Option α) (klog : List (Ev α)) (st' : St α),
      kernelLoop cfg i ks st ref = (klog, .ok st') →
      ∀ k ∈ ks, st.cutoff k = false := by
  intro ks
  induction ks with
  | nil =>
    intro st ref klog st' _ k hk
    simp at hk
  | cons kh ks ih =>
    intro st ref klog st' h k hk
    cases hc : st.cutoff kh with
    | true =>
      rw [kernelLoop_skip_noprog cfg i kh ks st ref hc hp] at h
      injection h with h1 h2
      simp at h2
    | false =>
      rcases List.mem_cons.mp hk with rfl | hmem
      · exact hc
      · rcases hbody : kernelBody cfg i kh st ref with ⟨blog, res⟩
        cases res with
        | error err =>
          rw [kernelLoop_live_err cfg i kh ks st ref hc hbody] at h
          injection h with h1 h2
          simp at h2
        | ok p =>
          rcases p with ⟨st₁, ref₁⟩
          rw [kernelLoop_live_ok cfg i kh ks st ref hc hbody] at h
          rcases hr : kernelLoop cfg i ks st₁ ref₁ with ⟨rlog, r⟩
          rw [hr] at h
          injection h with h1 h2
          cases r with
          | error e => simp at h2
          | ok st'' =>
            have hflag := ih st₁ ref₁ rlog st'' hr k hmem
            obtain ⟨val, -, -, -, -, hst₁⟩ := kernelBody_ok cfg i kh st ref hbody
            by_cases hkk : k = kh
            · subst hkk
              exact hc
            · rw [hst₁] at hflag
              simpa [bodyCutoff, hkk] using hflag

/-- With progress disabled, a sweep that returns a result stops no later
than one size after any cutoff-flag write: the skip at the following size
would have raised. -/
theorem sweepLoop_cutoff_stop {α : Type} (cfg : BenchCfg α) (hp : cfg.showProgress = false) :
    ∀ (ns : List ℤ) (i : ℕ) (st : St α) (slog : List (Ev α)) (m : ℕ) (st' : St α),
      sweepLoop cfg i ns st = (slog, .ok (m, st')) →
      (∀ k, k < cfg.K → st.cutoff k = true → m ≤ i) ∧
      (∀ k j, Ev.cutoffSet k j ∈ slog → m ≤ j + 1) := by
  intro ns
  induction ns with
  | nil =>
    intro i st slog m st' h
    rw [sweepLoop] at h
    injection h with h1 h2
    injection h2 with h2
    injection h2 with h2a h2b
    subst h1
    subst h2a
    exact ⟨fun _ _ _ => le_rfl, fun k j hm => by simp at hm⟩
  | cons n rest ih =>
    intro i st slog m st' h
    by_cases hni : cfg.interruptAfter = some i
    · rw [sweepLoop_interrupt cfg i n rest st hni] at h
      injection h with h1 h2
      injection h2 with h2
      injection h2 with h2a h2b
      subst h1
      subst h2a
      exact ⟨fun _ _ _ => le_rfl, fun k j hm => by simp at hm⟩
    · cases hs : cfg.setupExc i with
      | some e =>
        rw [sweepLoop_setup_err cfg i n rest st e hni hs] at h
        injection h with h1 h2
        simp at h2
      | none =>
        rcases hkl : kernelLoop cfg i (List.range cfg.K) st none with ⟨klog, kres⟩
        cases kres with
        | error err =>
          rw [sweepLoop_kl_err cfg i n rest st hni hs hkl] at h
          injection h with h1 h2
          simp at h2
        | ok st₁ =>
          rw [sweepLoop_step_ok cfg i n rest st hni hs hkl] at h
          rcases hr : sweepLoop cfg (i + 1) rest st₁ with ⟨rlog, r⟩
          rw [hr] at h
          injection h with h1 h2
          subst h1
          cases r with
          | error e => simp at h2
          | ok p =>
            rcases p with ⟨m', st''⟩
            injection h2 with h2
            injection h2 with h2a h2b
            subst h2a
            obtain ⟨ihA, ihB⟩ := ih (i + 1) st₁ rlog m' st'' hr
            have hnoflag := kernelLoop_ok_noprog cfg i hp (List.range cfg.K) st none klog st₁ hkl
            refine ⟨?_, ?_⟩
            · intro k hkK hflag
              exact absurd (hnoflag k (List.mem_range.mpr hkK)) (by rw [hflag]; simp)
            · intro k j hm
              rcases List.mem_cons.mp hm with heq | hmk
              · exact absurd heq (by simp)
              · rcases List.mem_append.mp hmk with hmk | hmk
                · obtain ⟨hidx, k', hker, hkmem, -⟩ :=
                    kernelLoop_events cfg i (List.range cfg.K) st none
                      (List.nodup_range cfg.K) _ (by rw [hkl]; exact hmk)
                  have hkk : k = k' := by simpa [Ev.ker] using hker
                  subst hkk
                  have hji : j = i := by simpa [Ev.idx] using hidx
                  subst hji
                  obtain ⟨-, -, -, -, hiff, -⟩ :=
                    (kernelLoop_ok_state cfg j (List.range cfg.K) st none klog st₁ hkl
                      (List.nodup_range cfg.K)).2.2 k hkmem
                      (hnoflag k hkmem)
                  have hflag₁ : st₁.cutoff k = true := by
                    obtain ⟨-, -, -, hcu, hiff', -⟩ :=
                      (kernelLoop_ok_state cfg j (List.range cfg.K) st none klog st₁ hkl
                        (List.nodup_range cfg.K)).2.2 k hkmem (hnoflag k hkmem)
                    rw [hcu]
                    exact hiff'.mp hmk
                  exact ihA k (List.mem_range.mp hkmem) hflag₁
                · exact ihB k j hmk

/-- Facts about every check invocation of a sweep, whether the run returns
or aborts: the kernel is non-baseline and not cut off earlier, and the
reference argument is kernel 0's output at that size when kernel 0 is live
there, the empty reference otherwise. -/
theorem sweepLoop_checkEv_facts {α : Type} (cfg : BenchCfg α) :
    ∀ (ns : List ℤ) (i : ℕ) (st : St α) (log₀ : List (Ev α)),
      TraceInv cfg log₀ i st →
      ∀ (slog : List (Ev α)) (res : Except BenchError (ℕ × St α)),
        sweepLoop cfg i ns st = (slog, res) →
        ∀ k j (r : Option α) v, Ev.checkEv k j r v ∈ log₀ ++ slog →
          0 < k ∧
          (¬ ∃ j', j' < j ∧ Ev.cutoffSet k j' ∈ log₀ ++ slog) ∧
          ((∃ j', j' < j ∧ Ev.cutoffSet 0 j' ∈ log₀ ++ slog) → r = none) ∧
          ((¬ ∃ j', j' < j ∧ Ev.cutoffSet 0 j' ∈ log₀ ++ slog) →
            ∃ v₀, cfg.kernelVal 0 j = Except.ok v₀ ∧ r = some v₀) := by
  intro ns
  induction ns with
  | nil =>
    intro i st log₀ hInv slog res h k j r v hm
    rw [sweepLoop] at h
    injection h with h1 h2
    subst h1
    rw [List.append_nil] at hm ⊢
    exact hInv.check_props k j r v hm
  | cons n rest ih =>
    intro i st log₀ hInv slog res h k j r v hm
    have hsplit' : ∀ (tail : List (Ev α)),
        (∀ k' j', Ev.cutoffSet k' j' ∈ tail → j' = i) →
        ∀ k' jj, jj ≤ i →
          ((∃ j', j' < jj ∧ Ev.cutoffSet k' j' ∈ log₀ ++ tail) ↔
            ∃ j', j' < jj ∧ Ev.cutoffSet k' j' ∈ log₀) := by
      intro tail htail k' jj hjj
      constructor
      · rintro ⟨j', hj', hmm⟩
        rcases List.mem_append.mp hmm with hmm | hmm
        · exact ⟨j', hj', hmm⟩
        · have := htail k' j' hmm
          omega
      · rintro ⟨j', hj', hmm⟩
        exact ⟨j', hj', List.mem_append_left _ hmm⟩
    by_cases hni : cfg.interruptAfter = some i
    · rw [sweepLoop_interrupt cfg i n rest st hni] at h
      injection h with h1 h2
      subst h1
      rw [List.append_nil] at hm ⊢
      exact hInv.check_props k j r v hm
    · cases hs : cfg.setupExc i with
      | some e =>
        rw [sweepLoop_setup_err cfg i n rest st e hni hs] at h
        injection h with h1 h2
        subst h1
        have hmem : Ev.checkEv k j r v ∈ log₀ := by
          rcases List.mem_append.mp hm with hmm | hmm
          · exact hmm
          · simp at hmm
        have hjlt : j < i := by simpa [Ev.idx] using hInv.idx_lt _ hmem
        have htail : ∀ k' j', Ev.cutoffSet k' j' ∈ ([Ev.setupEv i] : List (Ev α)) → j' = i := by
          intro k' j' hmm
          simp at hmm
        obtain ⟨p0, p1, p2, p3⟩ := hInv.check_props k j r v hmem
        refine ⟨p0, fun hex => p1 ((hsplit' _ htail k j (le_of_lt hjlt)).mp hex), ?_, ?_⟩
        · intro hex
          exact p2 ((hsplit' _ htail 0 j (le_of_lt hjlt)).mp hex)
        · intro hnex
          exact p3 (fun hex => hnex ((hsplit' _ htail 0 j (le_of_lt hjlt)).mpr hex))
      | none =>
        rcases hkl : kernelLoop cfg i (List.range cfg.K) st none with ⟨klog, kres⟩
        have hktail : ∀ k' j', Ev.cutoffSet k' j' ∈ Ev.setupEv i :: klog → j' = i := by
          intro k' j' hmm
          rcases List.mem_cons.mp hmm with heq | hmk
          · exact absurd heq (by simp)
          · obtain ⟨hidx, -⟩ := kernelLoop_events cfg i (List.range cfg.K) st none
              (List.nodup_range cfg.K) _ (by rw [hkl]; exact hmk)
            simpa [Ev.idx] using hidx
        have hnewCheck : ∀ (hmk : Ev.checkEv k j r v ∈ klog),
            0 < k ∧
            (¬ ∃ j', j' < j ∧ Ev.cutoffSet k j' ∈ log₀ ++ (Ev.setupEv i :: klog)) ∧
            ((∃ j', j' < j ∧ Ev.cutoffSet 0 j' ∈ log₀ ++ (Ev.setupEv i :: klog)) → r = none) ∧
            ((¬ ∃ j', j' < j ∧ Ev.cutoffSet 0 j' ∈ log₀ ++ (Ev.setupEv i :: klog)) →
              ∃ v₀, cfg.kernelVal 0 j = Except.ok v₀ ∧ r = some v₀) := by
          intro hmk
          obtain ⟨hu, hknz, hji, hkv⟩ :=
            kernelLoop_checkEv cfg i (List.range cfg.K) st none k j r v
              (by rw [hkl]; exact hmk)
          subst hji
          obtain ⟨-, k', hker, -, hlive⟩ := kernelLoop_events cfg j (List.range cfg.K) st none
            (List.nodup_range cfg.K) _ (by rw [hkl]; exact hmk)
          have hkk : k = k' := by simpa [Ev.ker] using hker
          subst hkk
          obtain ⟨q1, q2⟩ := kernelLoop_rangeK_ref cfg j st (by rw [hkl]; exact hmk)
          refine ⟨Nat.pos_of_ne_zero hknz, ?_, ?_, ?_⟩
          · intro hex
            obtain ⟨j', hj', hm'⟩ := (hsplit' _ hktail k j le_rfl).mp hex
            exact absurd ((hInv.flag_iff k).mpr ⟨j', hm'⟩) (by rw [hlive]; simp)
          · intro hex
            obtain ⟨j', hj', hm'⟩ := (hsplit' _ hktail 0 j le_rfl).mp hex
            exact q1 ((hInv.flag_iff 0).mpr ⟨j', hm'⟩)
          · intro hnex
            have hcut0 : st.cutoff 0 = false := by
              cases hc0 : st.cutoff 0 with
              | false => rfl
              | true =>
                obtain ⟨j₀, hm₀⟩ := (hInv.flag_iff 0).mp hc0
                have hjlt₀ : j₀ < j := by simpa [Ev.idx] using hInv.idx_lt _ hm₀
                exact absurd ⟨j₀, hjlt₀, List.mem_append_left _ hm₀⟩ hnex
            exact q2 hcut0
        cases kres with
        | error err =>
          rw [sweepLoop_kl_err cfg i n rest st hni hs hkl] at h
          injection h with h1 h2
          subst h1
          rcases List.mem_append.mp hm with hmm | hmm
          · have hjlt : j < i := by simpa [Ev.idx] using hInv.idx_lt _ hmm
            obtain ⟨p0, p1, p2, p3⟩ := hInv.check_props k j r v hmm
            refine ⟨p0, fun hex => p1 ((hsplit' _ hktail k j (le_of_lt hjlt)).mp hex), ?_, ?_⟩
            · intro hex
              exact p2 ((hsplit' _ hktail 0 j (le_of_lt hjlt)).mp hex)
            · intro hnex
              exact p3 (fun hex => hnex ((hsplit' _ hktail 0 j (le_of_lt hjlt)).mpr hex))
          · rcases List.mem_cons.mp hmm with heq | hmk
            · exact absurd heq (by simp)
            · exact hnewCheck hmk
        | ok st₁ =>
          rw [sweepLoop_step_ok cfg i n rest st hni hs hkl] at h
          rcases hr : sweepLoop cfg (i + 1) rest st₁ with ⟨rlog, r₂⟩
          rw [hr] at h
          injection h with h1 h2
          subst h1
          have hInv₁ := traceInv_step cfg hInv hkl
          have hassoc : log₀ ++ (Ev.setupEv i :: (klog ++ rlog))
              = (log₀ ++ (Ev.setupEv i :: klog)) ++ rlog := by
            simp
          rw [hassoc] at hm ⊢
          exact ih (i + 1) st₁ (log₀ ++ (Ev.setupEv i :: klog)) hInv₁ rlog r₂ hr k j r v hm

/-- `cutBefore` decides exactly the existence of a strictly earlier logged
cutoff event for the kernel. -/
theorem cutBefore_iff {α : Type} [DecidableEq α] (log : List (Ev α)) (k i : ℕ) :
    cutBefore log k i = true ↔ ∃ j, j < i ∧ Ev.cutoffSet k j ∈ log := by
  unfold cutBefore
  rw [List.any_eq_true]
  constructor
  · rintro ⟨e, hmem, he⟩
    cases e with
    | cutoffSet k' j =>
      simp only [decide_eq_true_eq] at he
      obtain ⟨hk, hj⟩ := he
      subst hk
      exact ⟨j, hj, hmem⟩
    | setupEv i' => simp at he
    | call k' j => simp at he
    | checkEv k' j r v => simp at he
    | cal k' j r => simp at he
  · rintro ⟨j, hj, hmem⟩
    refine ⟨Ev.cutoffSet k j, hmem, ?_⟩
    simp [hj]

/-! ## Calibrator lemmas -/

theorem foldl_min_self (x : ℕ) : ∀ r : ℕ, List.foldl min x (List.replicate r x) = x
  | 0 => rfl
  | r + 1 => by
    rw [List.replicate_succ, List.foldl_cons, min_self]
    exact foldl_min_self x r

theorem min?_replicate_succ (r x : ℕ) : (List.replicate (r + 1) x).min? = some x := by
  rw [List.replicate_succ]
  show some (List.foldl min x (List.replicate r x)) = some x
  rw [foldl_min_self]

/-- When the minimum trial total strictly exceeds the resolution floor, the
loop returns the floor-divided minimum per-call estimate at once. -/
theorem bLoop_exit (D r n f : ℕ) (h : requiredTimingNs < n * D) :
    bLoop D (r + 1) (f + 1) n = some ((n * D) / n) := by
  rw [bLoop, min?_replicate_succ]
  simp only [if_pos h, List.map_replicate, min?_replicate_succ]

/-- When the minimum trial total is still at or below the resolution floor,
the loop recurses with the grown batch count. -/
theorem bLoop_step (D r n f : ℕ) (h : ¬ requiredTimingNs < n * D) :
    bLoop D (r + 1) (f + 1) n = bLoop D (r + 1) f (nextNumber (n * D) n) := by
  rw [bLoop, min?_replicate_succ]
  simp only [if_neg h]

/-- In the regime relevant to a non-terminal iteration (positive minimum total
at most the floor), the growth factor takes its division-with-allowance
branch. -/
theorem growFactor_eq (m : ℕ) (hm : 0 < m) (hm10 : m ≤ requiredTimingNs) :
    growFactor m = (requiredTimingNs : ℚ) / (m : ℚ) + allowance := by
  have h1 : (requiredTimingNs : ℚ) / (maxFactor - allowance) < (m : ℚ) := by
    have hm' : (1 : ℚ) ≤ (m : ℚ) := by exact_mod_cast hm
    have h2 : (requiredTimingNs : ℚ) / (maxFactor - allowance) < 1 := by
      norm_num [requiredTimingNs, maxFactor, allowance]
    linarith
  rw [growFactor, if_pos hm, if_pos h1]

theorem one_le_growFactor (m : ℕ) (hm : 0 < m) (hm10 : m ≤ requiredTimingNs) :
    (1 : ℚ) ≤ growFactor m := by
  rw [growFactor_eq m hm hm10]
  have hm' : (0 : ℚ) < (m : ℚ) := by exact_mod_cast hm
  have h10 : (m : ℚ) ≤ (requiredTimingNs : ℚ) := by exact_mod_cast hm10
  have hd : (1 : ℚ) ≤ (requiredTimingNs : ℚ) / (m : ℚ) := (one_le_div hm').mpr h10
  have ha : (0 : ℚ) < allowance := by norm_num [allowance]
  linarith

/-- The `+ 1` after truncation makes the batch count strictly increase in any
non-terminal iteration. -/
theorem lt_nextNumber (m n : ℕ) (hm : 0 < m) (hm10 : m ≤ requiredTimingNs) :
    n < nextNumber m n := by
  have hf := one_le_growFactor m hm hm10
  have hn0 : (0 : ℚ) ≤ (n : ℚ) := Nat.cast_nonneg n
  have h1 : (n : ℚ) ≤ growFactor m * (n : ℚ) := by nlinarith
  have h2 : (n : ℤ) ≤ ⌊growFactor m * (n : ℚ)⌋ := by
    apply Int.le_floor.mpr
    push_cast
    exact h1
  have h0 : 0 ≤ ⌊growFactor m * (n : ℚ)⌋ := le_trans (by exact_mod_cast Nat.zero_le n) h2
  have h3 : n ≤ (⌊growFactor m * (n : ℚ)⌋).toNat := (Int.le_toNat h0).mpr h2
  rw [nextNumber]
  omega

/-- After one growth step from a non-terminal iteration, the minimum trial
total strictly exceeds the resolution floor (for an integral fixed per-call
duration). -/
theorem lt_next_total (D n : ℕ) (hD : 0 < D) (hn : 0 < n)
    (h10 : n * D ≤ requiredTimingNs) :
    requiredTimingNs < nextNumber (n * D) n * D := by
  have hm : 0 < n * D := Nat.mul_pos hn hD
  have hfe := growFactor_eq (n * D) hm h10
  have hf1 := one_le_growFactor (n * D) hm h10
  have hn0 : (0 : ℚ) ≤ (n : ℚ) := Nat.cast_nonneg n
  have hx0 : (0 : ℚ) ≤ growFactor (n * D) * (n : ℚ) := by nlinarith
  have hfl0 : 0 ≤ ⌊growFactor (n * D) * (n : ℚ)⌋ := Int.floor_nonneg.mpr hx0
  have ht : ((⌊growFactor (n * D) * (n : ℚ)⌋.toNat : ℕ) : ℤ) = ⌊growFactor (n * D) * (n : ℚ)⌋ :=
    Int.toNat_of_nonneg hfl0
  have htq : ((⌊growFactor (n * D) * (n : ℚ)⌋.toNat : ℕ) : ℚ)
      = (⌊growFactor (n * D) * (n : ℚ)⌋ : ℚ) := by
    exact_mod_cast congrArg (fun z : ℤ => (z : ℚ)) ht
  have hnn : ((nextNumber (n * D) n : ℕ) : ℚ) = (⌊growFactor (n * D) * (n : ℚ)⌋ : ℚ) + 1 := by
    rw [nextNumber]
    push_cast
    rw [htq]
  have hgt : growFactor (n * D) * (n : ℚ) < ((nextNumber (n * D) n : ℕ) : ℚ) := by
    rw [hnn]
    exact Int.lt_floor_add_one _
  have hD' : (0 : ℚ) < (D : ℚ) := by exact_mod_cast hD
  have hm' : (0 : ℚ) < ((n * D : ℕ) : ℚ) := by exact_mod_cast hm
  have hmQ : ((n * D : ℕ) : ℚ) = (n : ℚ) * (D : ℚ) := by push_cast; ring
  have e1 : growFactor (n * D) * (n : ℚ) * (D : ℚ)
      = (requiredTimingNs : ℚ) + ((n * D : ℕ) : ℚ) * allowance := by
    rw [hfe, hmQ]
    have hne : (n : ℚ) * (D : ℚ) ≠ 0 := by positivity
    field_simp
    ring
  have key : (requiredTimingNs : ℚ) < ((nextNumber (n * D) n : ℕ) : ℚ) * (D : ℚ) := by
    have ha : (0 : ℚ) < allowance := by norm_num [allowance]
    nlinarith
  have : (requiredTimingNs : ℚ) < ((nextNumber (n * D) n * D : ℕ) : ℚ) := by
    push_cast
    exact key
  exact_mod_cast this

/-! ## Claims C2 and C3: the calibrator -/

/-- C2: for every positive repeat count and every kernel whose per-call
duration (as reported by the clock) is a fixed strictly positive value `D`,
the calibrator loop terminates: in every iteration in which the minimum batch
total `n * D` does not exceed the 10 ns floor, the batch call count strictly
increases (the `+ 1` after truncation prevents a zero-growth stall), and the
loop in fact returns a value within two iterations. -/
theorem claim_C2 (D rep : ℕ) (hD : 0 < D) (hrep : 0 < rep) :
    (∀ n, 0 < n → n * D ≤ requiredTimingNs → n < nextNumber (n * D) n) ∧
    ∃ v, bCal D rep 2 = some v := by
  obtain ⟨r, rfl⟩ : ∃ r, rep = r + 1 := ⟨rep - 1, by omega⟩
  constructor
  · intro n hn h10
    exact lt_nextNumber (n * D) n (Nat.mul_pos hn hD) h10
  · by_cases h : requiredTimingNs < 1 * D
    · exact ⟨(1 * D) / 1, by rw [bCal, bLoop_exit D r 1 1 h]⟩
    · have h10 : 1 * D ≤ requiredTimingNs := by omega
      have hexit : requiredTimingNs < nextNumber (1 * D) 1 * D :=
        lt_next_total D 1 hD one_pos h10
      refine ⟨(nextNumber (1 * D) 1 * D) / nextNumber (1 * D) 1, ?_⟩
      rw [bCal, bLoop_step D r 1 1 h, bLoop_exit D r (nextNumber (1 * D) 1) 0 hexit]

/-- Witness for C2 at `D = 1`, `rep = 1`. -/
theorem claim_C2_witness :
    (∀ n, 0 < n → n * 1 ≤ requiredTimingNs → n < nextNumber (n * 1) n) ∧
    ∃ v, bCal 1 1 2 = some v :=
  claim_C2 1 1 (by decide) (by decide)

/-- C3: under a deterministic clock where every single kernel call takes
exactly a fixed duration `D` ns with `D` strictly greater than the 10 ns
resolution floor, the calibrator returns exactly `D`, for every positive
repeat count (and any positive iteration bound: it exits in the first
iteration, with batch count 1, so the per-call estimate is `D` itself). -/
theorem claim_C3 (D rep fuel : ℕ) (hD : requiredTimingNs < D) (hrep : 0 < rep)
    (hfuel : 0 < fuel) :
    bCal D rep fuel = some D := by
  obtain ⟨r, rfl⟩ : ∃ r, rep = r + 1 := ⟨rep - 1, by omega⟩
  obtain ⟨f, rfl⟩ : ∃ f, fuel = f + 1 := ⟨fuel - 1, by omega⟩
  have h : requiredTimingNs < 1 * D := by rwa [one_mul]
  rw [bCal, bLoop_exit D r 1 f h, one_mul, Nat.div_one]

/-- Witness for C3 at `D = 11`, `rep = 3`. -/
theorem claim_C3_witness : bCal 11 3 1 = some 11 :=
  claim_C3 11 3 1 (by decide) (by decide) (by decide)

/-- C1 (amended): for every completed sweep (with a calibrator oracle that
returns positive estimates), every cell (k, i) of the returned timing matrix
is either unwritten ("not a number") or a strictly positive nanosecond value,
and it is unwritten exactly when kernel k's cutoff flag was set at a size
index strictly before i.  (The size at which the flag is set still gets its
measurement recorded — line 248 runs unconditionally after lines 239-240 —
so "at or before" in the original claim is wrong; and an interruption never
explains an unwritten cell of the truncated matrix, since truncation keeps
only fully completed sizes.) -/
theorem claim_C1 {α : Type} [DecidableEq α] (cfg : BenchCfg α) (log : List (Ev α))
    (data : PerfplotData) (hcal : ∀ k i r, 0 < cfg.calRes k i r)
    (hres : bench cfg = (log, Except.ok data)) :
    ∀ k, k < cfg.K → ∀ i, i < data.n_range.length →
      (cell data k i = none ∨ ∃ t, cell data k i = some t ∧ 0 < t) ∧
      (cell data k i = none ↔
        (cutBefore log k i = true ∨ interruptedBefore cfg i = true)) := by
  obtain ⟨m, st', hsweep, hdata⟩ := bench_ok_inv cfg hres
  obtain ⟨hInv, -, -, -, hm₀⟩ :=
    sweepLoop_ok_inv cfg cfg.nRange 0 (initSt α) [] (traceInv_init cfg) log m st' hsweep
  rw [List.nil_append] at hInv
  intro k hk i hi
  have hlenm : data.n_range.length ≤ m := by
    rw [hdata]
    show (cfg.nRange.take m).length ≤ m
    rw [List.length_take]
    omega
  have him : i < m := by omega
  have hcell : cell data k i = st'.timings k i := by
    rw [hdata]
    show (((List.range cfg.K).map fun k => (List.range m).map fun i =>
      st'.timings k i).getD k []).getD i none = st'.timings k i
    rw [getD_map_range _ cfg.K k hk, getD_map_range _ m i him]
  have hib : interruptedBefore cfg i = false := by
    unfold interruptedBefore
    cases hia : cfg.interruptAfter with
    | none => rfl
    | some m₂ =>
      have hm' := hm₀ m₂ hia (Nat.zero_le m₂)
      show decide (m₂ ≤ i) = false
      simp only [decide_eq_false_iff_not]
      omega
  constructor
  · rcases hInv.cell_val k i with hnone | ⟨hval, h0⟩
    · left
      rw [hcell]
      exact hnone
    · right
      exact ⟨cellValue cfg k i, by rw [hcell]; exact hval, cellValue_pos cfg k i hcal h0⟩
  · rw [hcell, hib]
    simp only [Bool.false_eq_true, or_false]
    rw [cutBefore_iff]
    exact hInv.cell_none_iff k hk i him

/-- Counterexample to C1 as stated: with a zero ceiling and a 5 ns one-shot,
kernel 0's cutoff flag is set while processing size index 0 ("at" index 0),
yet cell (0, 0) holds the recorded 5 ns measurement, not "not a number". -/
theorem claim_C1_counterexample :
    bench cfgC1x = (c1xLog, Except.ok c1xData) ∧
    cutAtOrBefore c1xLog 0 0 = true ∧
    cell c1xData 0 0 = some 5 ∧
    ¬ (cell c1xData 0 0 = none ↔
      (cutAtOrBefore c1xLog 0 0 = true ∨ interruptedBefore cfgC1x 0 = true)) :=
  ⟨by decide, by decide, by decide, by decide⟩

/-- Witness for the amended C1 on a two-size run whose kernel is cut off at
size 0: cell (0, 1) is unwritten and the equivalence holds there. -/
theorem claim_C1_witness :
    ((cell cut2Data 0 1 = none ∨ ∃ t, cell cut2Data 0 1 = some t ∧ 0 < t) ∧
      (cell cut2Data 0 1 = none ↔
        (cutBefore cut2Log 0 1 = true ∨ interruptedBefore cfgCut2 1 = true))) :=
  claim_C1 cfgCut2 cut2Log cut2Data (fun _ _ _ => Nat.one_pos) (by decide)
    0 (by decide) 1 (by decide)

/-- C4: for a live kernel at a size with a nonzero one-shot time `t_ns` (the
kernel returning a value and the equality check passing), the body records a
cell: when the floor quotient `repCount = (target_ns - t_ns) // t_ns` is
strictly positive, the calibrator is invoked with exactly that repeat count
and the recorded timing is `min t_ns calibrated`; otherwise the calibrator is
not invoked and the recorded timing is `t_ns` alone (lines 236-248). -/
theorem claim_C4 {α : Type} (cfg : BenchCfg α) (i k : ℕ) (st : St α) (ref : Option α)
    (val : α) (ref' : Option α)
    (hkv : cfg.kernelVal k i = Except.ok val)
    (hcs : (checkStep cfg ref val k i).2 = Except.ok ref')
    (h0 : cfg.oneShot k i ≠ 0) :
    ∃ st₂, (kernelBody cfg i k st ref).2 = Except.ok (st₂, ref') ∧
      st₂.timings k i = some (cellValue cfg k i) ∧
      (0 < repCount cfg k i →
        Ev.cal k i (repCount cfg k i).toNat ∈ (kernelBody cfg i k st ref).1 ∧
        cellValue cfg k i
          = min (cfg.oneShot k i) (cfg.calRes k i (repCount cfg k i).toNat)) ∧
      (¬ 0 < repCount cfg k i →
        (∀ r, ¬ Ev.cal k i r ∈ (kernelBody cfg i k st ref).1) ∧
        cellValue cfg k i = cfg.oneShot k i) := by
  have hbody : kernelBody cfg i k st ref
      = (Ev.call k i :: ((checkStep cfg ref val k i).1 ++ cutLog cfg k i ++ calLog cfg k i),
         Except.ok (⟨bodyTimings cfg k i st, bodyCutoff cfg k i st⟩, ref')) := by
    rcases hcsp : checkStep cfg ref val k i with ⟨clog, cres⟩
    rw [hcsp] at hcs
    change cres = Except.ok ref' at hcs
    subst hcs
    unfold kernelBody
    simp only [hkv, hcsp, if_neg h0]
  refine ⟨⟨bodyTimings cfg k i st, bodyCutoff cfg k i st⟩, by rw [hbody], ?_, ?_, ?_⟩
  · show bodyTimings cfg k i st k i = some (cellValue cfg k i)
    unfold bodyTimings
    simp
  · intro hpos
    constructor
    · rw [hbody]
      simp only [List.mem_cons]
      right
      rw [List.mem_append]
      right
      unfold calLog
      rw [if_pos hpos]
      simp
    · unfold cellValue
      rw [if_pos hpos]
  · intro hneg
    constructor
    · intro r hmem
      rw [hbody] at hmem
      rcases mem_body_log_cases cfg ref val k i hmem with h' | ⟨h', -⟩ | ⟨h', -⟩ | ⟨-, hpos⟩
      · exact absurd h' (by simp)
      · exact absurd h' (by simp)
      · exact absurd h' (by simp)
      · exact hneg hpos
    · unfold cellValue
      rw [if_neg hneg]

/-- Witness for C4 on a non-baseline kernel under a configured passing check,
with a 100 ns target and a 5 ns one-shot: the repeat count is
`(100 - 5) // 5 = 19`, the calibrator invocation with 19 is logged, and the
cell records `min 5 3 = 3`. -/
theorem claim_C4_witness :
    Ev.cal 1 0 19 ∈ (kernelBody cfgC4w 0 1 (initSt ℕ) (some 0)).1 ∧
    cellValue cfgC4w 1 0 = 3 := by
  obtain ⟨st₂, -, -, hpos, -⟩ :=
    claim_C4 cfgC4w 0 1 (initSt ℕ) (some 0) 10 (some 0) rfl rfl (by decide)
  obtain ⟨hmem, hval⟩ := hpos (by decide)
  refine ⟨?_, ?_⟩
  · have h19 : (repCount cfgC4w 1 0).toNat = 19 := by decide
    rw [← h19]
    exact hmem
  · rw [hval]
    decide

/-- C5 (amended): whether the run returns or aborts, every equality-check
invocation happens for a non-baseline kernel whose cutoff flag is not set;
its reference argument is kernel 0's output at that size when kernel 0 was
not cut off at an earlier size, and `None` when it was (kernel 0 is then
skipped and produces no output at that size, contradicting the original
claim's "kernel 0's output at that size"); and a check returning false is
fatal for the whole run, which aborts with the divergence error. -/
theorem claim_C5 {α : Type} (cfg : BenchCfg α) (log : List (Ev α))
    (res : Except BenchError PerfplotData)
    (hres : bench cfg = (log, res)) :
    (∀ k j (r : Option α) v, Ev.checkEv k j r v ∈ log →
      0 < k ∧
      (¬ ∃ j', j' < j ∧ Ev.cutoffSet k j' ∈ log) ∧
      ((¬ ∃ j', j' < j ∧ Ev.cutoffSet 0 j' ∈ log) →
        ∃ v₀, cfg.kernelVal 0 j = Except.ok v₀ ∧ r = some v₀) ∧
      ((∃ j', j' < j ∧ Ev.cutoffSet 0 j' ∈ log) → r = none)) ∧
    (∀ k j (r : Option α) v, Ev.checkEv k j r v ∈ log →
      cfg.check r v = CheckRes.ok false →
      res = Except.error
        (BenchError.divergence (cfg.labels.getD 0 "") (cfg.labels.getD k ""))) := by
  constructor
  · have hsweep : ∃ res₂, sweepLoop cfg 0 cfg.nRange (initSt α) = (log, res₂) := by
      cases res with
      | ok data =>
        obtain ⟨m, st', hs, -⟩ := bench_ok_inv cfg hres
        exact ⟨Except.ok (m, st'), hs⟩
      | error e => exact ⟨Except.error e, bench_err_inv cfg hres⟩
    obtain ⟨res₂, hs⟩ := hsweep
    intro k j r v hm
    have hf := sweepLoop_checkEv_facts cfg cfg.nRange 0 (initSt α) [] (traceInv_init cfg)
      log res₂ hs k j r v (by rw [List.nil_append]; exact hm)
    rw [List.nil_append] at hf
    exact ⟨hf.1, hf.2.1, hf.2.2.2, hf.2.2.1⟩
  · intro k j r v hm hfalse
    have hout := checkOut_of_false cfg r v k hfalse
    cases res with
    | ok data =>
      obtain ⟨m, st', hs', -⟩ := bench_ok_inv cfg hres
      have h2 := sweepLoop_checkEv_out cfg cfg.nRange 0 (initSt α) k j r v _
        (by rw [hs']; exact hm) hout
      rw [hs'] at h2
      simp at h2
    | error e =>
      have hs' := bench_err_inv cfg hres
      have h2 := sweepLoop_checkEv_out cfg cfg.nRange 0 (initSt α) k j r v _
        (by rw [hs']; exact hm) hout
      rw [hs'] at h2
      have h2' : (Except.error e : Except BenchError (ℕ × St α))
          = Except.error (BenchError.divergence (cfg.labels.getD 0 "")
              (cfg.labels.getD k "")) := h2
      injection h2' with h2''
      rw [h2'']

/-- Counterexample to C5 as stated: with kernel 0 cut off at size 0, the
check for the live kernel 1 at size 1 is invoked with the `None` reference,
not with kernel 0's output at that size — kernel 0 is not even called there
(its oracle would return 1). -/
theorem claim_C5_counterexample :
    bench cfgC5x = (c5xLog, Except.ok c5xData) ∧
    Ev.checkEv 1 1 (none : Option ℕ) 11 ∈ c5xLog ∧
    cutBefore c5xLog 1 1 = false ∧
    cfgC5x.kernelVal 0 1 = Except.ok 1 ∧
    ¬ Ev.call 0 1 ∈ c5xLog :=
  ⟨by decide, by decide, by decide, rfl, by decide⟩

/-- Witness for the amended C5 on a two-kernel run with both kernels live:
the check at size 0 for kernel 1 carries kernel 0's output as reference. -/
theorem claim_C5_witness :
    0 < 1 ∧ ∃ v₀, cfgC5w.kernelVal 0 0 = Except.ok v₀ ∧ (some 0 : Option ℕ) = some v₀ := by
  obtain ⟨h1, -, h3, -⟩ := (claim_C5 cfgC5w c5wLog (Except.ok c5wData) (by decide)).1
    1 0 (some 0) 10 (by decide)
  refine ⟨h1, h3 ?_⟩
  rintro ⟨j', hj', -⟩
  exact absurd hj' (Nat.not_lt_zero j')

/-- C6: an aborting run ends with the configuration error exactly when some
check invocation raised `TypeError`; it ends with a divergence error exactly
when some check invocation — necessarily of a non-baseline, non-cutoff
kernel — returned false, and that error names the baseline kernel's label
and the offending kernel's label; an exception raised by a kernel call or by
the generator propagates to the caller unmodified (lines 218-234). -/
theorem claim_C6 {α : Type} (cfg : BenchCfg α) (log : List (Ev α))
    (err : BenchError) (hres : bench cfg = (log, Except.error err)) :
    (err = BenchError.configError ↔
      ∃ (k j : ℕ) (r : Option α) (v : α), Ev.checkEv k j r v ∈ log ∧
        cfg.check r v = CheckRes.typeError) ∧
    ((∃ l₀ lk, err = BenchError.divergence l₀ lk) ↔
      ∃ (k j : ℕ) (r : Option α) (v : α), Ev.checkEv k j r v ∈ log ∧ 0 < k ∧
        (¬ ∃ j', j' < j ∧ Ev.cutoffSet k j' ∈ log) ∧
        cfg.check r v = CheckRes.ok false ∧
        err = BenchError.divergence (cfg.labels.getD 0 "") (cfg.labels.getD k "")) ∧
    (∀ e, (∃ k j, Ev.call k j ∈ log ∧ cfg.kernelVal k j = Except.error e) →
      err = BenchError.uncaught e) ∧
    (∀ e, (∃ j, Ev.setupEv j ∈ log ∧ cfg.setupExc j = some e) →
      err = BenchError.uncaught e) := by
  have hs := bench_err_inv cfg hres
  refine ⟨⟨?_, ?_⟩, ⟨?_, ?_⟩, ?_, ?_⟩
  · intro herr
    rcases sweepLoop_err cfg cfg.nRange 0 (initSt α) log err hs with
      ⟨he, -⟩ | ⟨k, j, r, v, hm, hout⟩ | ⟨k, j, e, hm, hkv, he⟩ | ⟨j, e, hm, hse, he⟩ | he
    · rw [herr] at he
      simp at he
    · rcases checkOut_error cfg r v k hout with ⟨-, hc⟩ | ⟨e, he, -⟩ | ⟨he, -⟩
      · exact ⟨k, j, r, v, hm, hc⟩
      · rw [herr] at he
        simp at he
      · rw [herr] at he
        simp at he
    · rw [herr] at he
      simp at he
    · rw [herr] at he
      simp at he
    · rw [herr] at he
      simp at he
  · rintro ⟨k, j, r, v, hm, hc⟩
    have h2 := sweepLoop_checkEv_out cfg cfg.nRange 0 (initSt α) k j r v _
      (by rw [hs]; exact hm) (checkOut_of_typeError cfg r v k hc)
    rw [hs] at h2
    have h2' : Except.error err = Except.error BenchError.configError := h2
    injection h2' with h2''
  · rintro ⟨l₀, lk, herr⟩
    rcases sweepLoop_err cfg cfg.nRange 0 (initSt α) log err hs with
      ⟨he, -⟩ | ⟨k, j, r, v, hm, hout⟩ | ⟨k, j, e, hm, hkv, he⟩ | ⟨j, e, hm, hse, he⟩ | he
    · rw [herr] at he
      simp at he
    · rcases checkOut_error cfg r v k hout with ⟨he, -⟩ | ⟨e, he, -⟩ | ⟨he, hc⟩
      · rw [herr] at he
        simp at he
      · rw [herr] at he
        simp at he
      · have hf := sweepLoop_checkEv_facts cfg cfg.nRange 0 (initSt α) []
          (traceInv_init cfg) log (Except.error err) hs k j r v
          (by rw [List.nil_append]; exact hm)
        rw [List.nil_append] at hf
        exact ⟨k, j, r, v, hm, hf.1, hf.2.1, hc, he⟩
    · rw [herr] at he
      simp at he
    · rw [herr] at he
      simp at he
    · rw [herr] at he
      simp at he
  · rintro ⟨k, j, r, v, hm, -, -, hc, herr⟩
    exact ⟨cfg.labels.getD 0 "", cfg.labels.getD k "", herr⟩
  · intro e
    rintro ⟨k, j, hm, hkv⟩
    have h2 := sweepLoop_call_out cfg cfg.nRange 0 (initSt α) k j e
      (by rw [hs]; exact hm) hkv
    rw [hs] at h2
    have h2' : Except.error err = Except.error (BenchError.uncaught e) := h2
    injection h2' with h2''
  · intro e
    rintro ⟨j, hm, hse⟩
    have h2 := sweepLoop_setup_out cfg cfg.nRange 0 (initSt α) j e
      (by rw [hs]; exact hm) hse
    rw [hs] at h2
    have h2' : Except.error err = Except.error (BenchError.uncaught e) := h2
    injection h2' with h2''

/-- Witness for C6 on a run whose check returns false at size 0 for kernel 1:
the run aborts with the divergence error naming labels "a" and "b". -/
theorem claim_C6_witness :
    ∃ (k j : ℕ) (r : Option ℕ) (v : ℕ), Ev.checkEv k j r v ∈ c6xLog ∧ 0 < k ∧
      (¬ ∃ j', j' < j ∧ Ev.cutoffSet k j' ∈ c6xLog) ∧
      cfgC6x.check r v = CheckRes.ok false ∧
      BenchError.divergence "a" "b"
        = BenchError.divergence (cfgC6x.labels.getD 0 "") (cfgC6x.labels.getD k "") := by
  obtain ⟨-, hdiv, -, -⟩ :=
    claim_C6 cfgC6x c6xLog (BenchError.divergence "a" "b") (by decide)
  exact hdiv.mp ⟨"a", "b", rfl⟩

/-- C7: once the trace records kernel k's cutoff flag being set at size index
i, the kernel is never invoked again — no one-shot call and no calibrator
invocation at any later index — and every cell of a completed returned
matrix for that kernel at indices strictly greater than i is unwritten
(lines 201-204, 239-240). -/
theorem claim_C7 {α : Type} (cfg : BenchCfg α) (log : List (Ev α)) (data : PerfplotData)
    (hres : bench cfg = (log, Except.ok data)) :
    ∀ k i, Ev.cutoffSet k i ∈ log →
      (∀ j, i < j → ¬ Ev.call k j ∈ log) ∧
      (∀ j r, i < j → ¬ Ev.cal k j r ∈ log) ∧
      (∀ j, i < j → j < data.n_range.length → cell data k j = none) := by
  obtain ⟨m, st', hsweep, hdata⟩ := bench_ok_inv cfg hres
  obtain ⟨hInv, -, -, -, -⟩ :=
    sweepLoop_ok_inv cfg cfg.nRange 0 (initSt α) [] (traceInv_init cfg) log m st' hsweep
  rw [List.nil_append] at hInv
  have hlenm : data.n_range.length ≤ m := by
    rw [hdata]
    show (cfg.nRange.take m).length ≤ m
    rw [List.length_take]
    omega
  intro k i hmem
  refine ⟨?_, ?_, ?_⟩
  · intro j hij hcall
    exact hInv.call_live k j hcall ⟨i, hij, hmem⟩
  · intro j r hij hcal
    exact hInv.cal_live k j r hcal ⟨i, hij, hmem⟩
  · intro j hij hjlen
    have hjm : j < m := by omega
    by_cases hk : k < cfg.K
    · have hcell : cell data k j = st'.timings k j := by
        rw [hdata]
        show (((List.range cfg.K).map fun k => (List.range m).map fun i =>
          st'.timings k i).getD k []).getD j none = st'.timings k j
        rw [getD_map_range _ cfg.K k hk, getD_map_range _ m j hjm]
      rw [hcell]
      exact (hInv.cell_none_iff k hk j hjm).mpr ⟨i, hij, hmem⟩
    · rw [hdata]
      show (((List.range cfg.K).map fun k => (List.range m).map fun i =>
        st'.timings k i).getD k []).getD j none = none
      rw [getD_map_range_hi _ cfg.K k (Nat.le_of_not_lt hk)]
      rfl

/-- Witness for C7 on the two-size run cut off at size 0: at size 1 the
kernel is neither called nor calibrated, and cell (0, 1) is unwritten. -/
theorem claim_C7_witness :
    ¬ Ev.call 0 1 ∈ cut2Log ∧ ¬ Ev.cal 0 1 1 ∈ cut2Log ∧ cell cut2Data 0 1 = none := by
  obtain ⟨h1, h2, h3⟩ := claim_C7 cfgCut2 cut2Log cut2Data (by decide) 0 0 (by decide)
  exact ⟨h1 1 (by decide), h2 1 1 (by decide), h3 1 (by decide) (by decide)⟩

/-- C8: under benign oracles (no configured check, progress enabled, kernels
returning values with nonzero one-shot times, a non-raising generator), a
cancellation signal arriving after exactly m fully completed sizes of a
longer sweep is not an error: the run returns a result whose size sequence
and whose timing matrix's size dimension both have length exactly m
(lines 254-260). -/
theorem claim_C8 {α : Type} (cfg : BenchCfg α) (m : ℕ)
    (hia : cfg.interruptAfter = some m) (hmN : m < cfg.nRange.length)
    (hchk : cfg.useCheck = false) (hprog : cfg.showProgress = true)
    (hker : ∀ k j, ∃ v, cfg.kernelVal k j = Except.ok v)
    (hone : ∀ k j, cfg.oneShot k j ≠ 0)
    (hsetup : ∀ j, cfg.setupExc j = none) :
    ∃ log data, bench cfg = (log, Except.ok data) ∧
      data.n_range.length = m ∧
      data.timings.length = cfg.K ∧
      ∀ row ∈ data.timings, row.length = m := by
  obtain ⟨slog, st', hsweep⟩ := sweepLoop_no_error cfg m hia hchk hprog hker hone hsetup
    cfg.nRange 0 (initSt α) (Nat.zero_le m)
  have hmin : min m (0 + cfg.nRange.length) = m := by omega
  rw [hmin] at hsweep
  refine ⟨slog,
    { n_range := cfg.nRange.take m
    , timings := (List.range cfg.K).map fun k => (List.range m).map fun i => st'.timings k i
    , flop := cfg.flops.map fun f => cfg.nRange.map f
    , labels := cfg.labels }, ?_, ?_, ?_, ?_⟩
  · unfold bench
    rw [hsweep]
  · show (cfg.nRange.take m).length = m
    rw [List.length_take]
    omega
  · show ((List.range cfg.K).map _).length = cfg.K
    simp
  · intro row hrow
    show row.length = m
    rw [List.mem_map] at hrow
    obtain ⟨k, -, hrow⟩ := hrow
    rw [← hrow]
    simp

/-- Witness for C8: five sizes with a cancellation after three completed
sizes yield a result of length exactly three. -/
theorem claim_C8_witness :
    ∃ log data, bench cfgC8w = (log, Except.ok data) ∧
      data.n_range.length = 3 ∧
      data.timings.length = 1 ∧
      ∀ row ∈ data.timings, row.length = 3 :=
  claim_C8 cfgC8w 3 rfl (by decide) rfl rfl (fun _ _ => ⟨0, rfl⟩)
    (fun _ _ => Nat.succ_ne_zero 4) (fun _ => rfl)

/-- C9: when the one-shot timed call of a live kernel reports 0 ns, the body
raises the unguarded division-by-zero at line 243 instead of recording a
timing: its result is the `ZeroDivisionError`, never a successful state. -/
theorem claim_C9 {α : Type} (cfg : BenchCfg α) (i k : ℕ) (st : St α) (ref : Option α)
    (val : α) (ref' : Option α)
    (hkv : cfg.kernelVal k i = Except.ok val)
    (hcs : (checkStep cfg ref val k i).2 = Except.ok ref')
    (h0 : cfg.oneShot k i = 0) :
    (kernelBody cfg i k st ref).2 = Except.error BenchError.zeroDivisionError ∧
    ∀ st₂ ref₂, (kernelBody cfg i k st ref).2 ≠ Except.ok (st₂, ref₂) := by
  have hmain : (kernelBody cfg i k st ref).2 = Except.error BenchError.zeroDivisionError := by
    rcases hcsp : checkStep cfg ref val k i with ⟨clog, cres⟩
    rw [hcsp] at hcs
    change cres = Except.ok ref' at hcs
    subst hcs
    unfold kernelBody
    simp only [hkv, hcsp]
    rw [if_pos h0]
  refine ⟨hmain, fun st₂ ref₂ hcontra => ?_⟩
  rw [hmain] at hcontra
  exact absurd hcontra (by simp)

/-- Witness for C9 on a kernel whose one-shot reads 0 ns. -/
theorem claim_C9_witness :
    (kernelBody cfgC9w 0 0 (initSt ℕ) none).2 = Except.error BenchError.zeroDivisionError :=
  (claim_C9 cfgC9w 0 0 (initSt ℕ) none 0 none rfl rfl rfl).1

/-- C10: with progress reporting disabled, the skip branch for a kernel whose
cutoff flag is set raises the `KeyError` of `progress.update(None, ...)`
instead of continuing (lines 184-192, 201-204); consequently a run that
nevertheless returns a result must have stopped no later than one size after
any cutoff-flag write it logged. -/
theorem claim_C10 {α : Type} (cfg : BenchCfg α) (hp : cfg.showProgress = false) :
    (∀ (i k : ℕ) (ks : List ℕ) (st : St α) (ref : Option α), st.cutoff k = true →
      kernelLoop cfg i (k :: ks) st ref = ([], Except.error BenchError.progressKeyError)) ∧
    (∀ (log : List (Ev α)) (data : PerfplotData), bench cfg = (log, Except.ok data) →
      ∀ k j, Ev.cutoffSet k j ∈ log → data.n_range.length ≤ j + 1) := by
  constructor
  · intro i k ks st ref hc
    exact kernelLoop_skip_noprog cfg i k ks st ref hc hp
  · intro log data hres k j hmem
    obtain ⟨m, st', hsweep, hdata⟩ := bench_ok_inv cfg hres
    obtain ⟨-, hB⟩ := sweepLoop_cutoff_stop cfg hp cfg.nRange 0 (initSt α) log m st' hsweep
    have hlenm : data.n_range.length ≤ m := by
      rw [hdata]
      show (cfg.nRange.take m).length ≤ m
      rw [List.length_take]
      omega
    have := hB k j hmem
    omega

/-- Witness for C10: with progress disabled, skipping the flagged kernel 0 at
size 1 yields the `KeyError`. -/
theorem claim_C10_witness :
    kernelLoop cfgC10w 1 (0 :: []) ⟨fun _ _ => none, fun _ => true⟩ none
      = ([], Except.error BenchError.progressKeyError) :=
  (claim_C10 cfgC10w rfl).1 1 0 [] ⟨fun _ _ => none, fun _ => true⟩ none rfl

end Perfplot
